import Mathlib

/-!
Alura storefront: cart store, checkout totals and persistence.

A shallow embedding of the cart core of `src/Src/App.jsx`:

* `PRODUCTS` (lines 20-27), the static catalog;
* `useCartState` (lines 32-92): the startup loader, the persistence effect,
  `calculateSubtotal`, `cartCount`, `updateQuantity`, `addToCart`, `clearCart`;
* the totals computed at the top of `CheckoutPage` (lines 369-374), its
  empty-cart branch and `handleCheckout` (lines 376-404);
* the `Notification` component and its timers (lines 97-107);
* the state of `App`, `navigate`, `triggerNotification`, `handleAddToCart` and
  `renderPage` (lines 502-542).

React state is modelled by explicit state passing: an updater handed to
`setCart` is a function `Cart → Cart`.  Cart ids and quantities are integers
held in JavaScript numbers (binary64); they are modelled by `Int`.  The
increment `item.quantity + 1` of `addToCart` is modelled with the rounding of
binary64 (`jsAdd`): it is exact while the result stays within `±2^53` and
rounds to the nearest representable integer beyond.  The sum `q + delta` of
`updateQuantity` and the sums of `cartCount` are the integer sums, which is
what the code computes while the values stay within `±2^53`.  Prices and
money amounts are modelled by `ℚ` (exact arithmetic, no rounding).
-/

namespace Alura

/-! ## Data model -/

/-- A catalog entry, one element of the `PRODUCTS` array. -/
structure Product where
  id : Int
  name : String
  price : ℚ
  category : String
  image : String

/-- A cart line, the object `{ id, quantity }` stored in the cart array. -/
structure CartLine where
  id : Int
  quantity : Int
  deriving DecidableEq, Repr

/-- The cart: the array held by `useState` in `useCartState`. -/
abbrev Cart := List CartLine

/-- The catalog `PRODUCTS` (App.jsx lines 20-27). -/
def PRODUCTS : List Product :=
  [ { id := 101, name := "The Renewal Peptide Serum", price := 49,
      category := "Beauty & Skincare",
      image := "https://placehold.co/600x600/FCFBF6/333333?text=Clean+Serum" },
    { id := 102, name := "The Classic Tailored Blazer", price := 159,
      category := "Fashion",
      image := "https://placehold.co/600x600/D4AFB9/333333?text=Linen+Jacket" },
    { id := 103, name := "Woven Bamboo Basket Set", price := 75,
      category := "Home & Lifestyle",
      image := "https://placehold.co/600x600/0A7D69/FCFBF6?text=Storage+Basket" },
    { id := 104, name := "Merino Wool Knit Dress", price := 129,
      category := "Fashion",
      image := "https://placehold.co/600x600/B88691/333333?text=Knit+Dress" },
    { id := 105, name := "Ceramic Minimalist Diffuser", price := 65,
      category := "Home & Lifestyle",
      image := "https://placehold.co/600x600/FCFBF6/0A7D69?text=Diffuser" },
    { id := 106, name := "Barrier Repair Cleansing Balm", price := 32,
      category := "Beauty & Skincare",
      image := "https://placehold.co/600x600/D4AFB9/333333?text=Cleansing+Balm" } ]

/-! ## Array helpers used by the cart code -/

/-- The method `Array.prototype.find`: the first element satisfying `p`, if any. -/
def find {α : Type} (p : α → Bool) : List α → Option α
  | [] => none
  | x :: xs => if p x then some x else find p xs

/-- The method `Array.prototype.findIndex`: the index of the first element satisfying
`p`; `none` stands for the JavaScript result `-1`. -/
def findIndex {α : Type} (p : α → Bool) : List α → Option Nat
  | [] => none
  | x :: xs => if p x then some 0 else (findIndex p xs).map (· + 1)

/-- The method `Array.prototype.map` with the two-argument callback `(item, index)`;
`start` is the index of the head of the list. -/
def mapWithIndex {α β : Type} (f : α → Nat → β) : List α → Nat → List β
  | [], _ => []
  | x :: xs, start => f x start :: mapWithIndex f xs (start + 1)

/-! ## Cart operations (`useCartState`) -/

/-- The catalog lookup `PRODUCTS.find(p => p.id === productId)`. -/
def findProduct (productId : Int) : Option Product :=
  find (fun p => p.id == productId) PRODUCTS

/-- The function `calculateSubtotal` (lines 47-52): a left fold over the cart that adds
`product.price * item.quantity` for lines whose product is found, `0`
otherwise. -/
def calculateSubtotal (cart : Cart) : ℚ :=
  cart.foldl
    (fun sum item =>
      sum + (match findProduct item.id with
             | some product => product.price * (item.quantity : ℚ)
             | none => 0))
    0

/-- The value `cartCount` (line 54): a left fold adding up the quantities. -/
def cartCount (cart : Cart) : Int :=
  cart.foldl (fun sum item => sum + item.quantity) 0

/-- The updater passed to `setCart` by `updateQuantity(productId, delta)`
(lines 56-71).  The index returned by `findIndex` is always in range, so the
`none` branch of the element read `currentCart[itemIndex]` is never taken. -/
def updateQuantity (productId : Int) (delta : Int) (currentCart : Cart) : Cart :=
  match findIndex (fun i => i.id == productId) currentCart with
  | none => currentCart
  | some itemIndex =>
    match currentCart[itemIndex]? with
    | none => currentCart
    | some found =>
      let newQuantity := found.quantity + delta
      if newQuantity ≤ 0 then
        currentCart.filter (fun item => item.id != productId)
      else
        mapWithIndex
          (fun item index =>
            if index == itemIndex then { item with quantity := newQuantity } else item)
          currentCart 0

/-- The spacing of the binary64 numbers around `n`: the least power of two
`unit` for which `n / unit` fits in 53 bits.  The fuel bounds the number of
halvings; `n` itself is always enough. -/
def spacing : Nat → Nat → Nat
  | 0, _ => 1
  | fuel + 1, n => if n < 9007199254740992 then 1 else 2 * spacing fuel (n / 2)

/-- The natural number `n` rounded to a 53-bit significand, to nearest with
ties to the even significand.  Every `n ≤ 2^53 = 9007199254740992` is
representable and is returned as it is. -/
def roundNat53 (n : Nat) : Nat :=
  if n ≤ 9007199254740992 then n
  else
    let unit := spacing n n
    let quotient := n / unit
    let remainder := n % unit
    let half := unit / 2
    if remainder < half then quotient * unit
    else if half < remainder then (quotient + 1) * unit
    else if quotient % 2 = 0 then quotient * unit
    else (quotient + 1) * unit

/-- The integer `n` rounded to the nearest binary64 number (the exponent
range of binary64 is not modelled: adding 1 to a finite number never
overflows). -/
def roundBinary64 : Int → Int
  | Int.ofNat m => Int.ofNat (roundNat53 m)
  | Int.negSucc m => -(Int.ofNat (roundNat53 (m + 1)))

/-- The JavaScript sum `a + b` of two integer-valued numbers: the exact sum
rounded to binary64. -/
def jsAdd (a b : Int) : Int := roundBinary64 (a + b)

/-- The call `addToCart(productId)` (lines 73-87): nothing happens when the product is
not in the catalog; otherwise the updater passed to `setCart` is applied. -/
def addToCart (productId : Int) (currentCart : Cart) : Cart :=
  match findProduct productId with
  | none => currentCart
  | some _ =>
    match find (fun i => i.id == productId) currentCart with
    | some _ =>
      currentCart.map
        (fun item =>
          if item.id == productId then { item with quantity := jsAdd item.quantity 1 }
          else item)
    | none => currentCart ++ [{ id := productId, quantity := 1 }]

/-- The function `clearCart` (line 89): `setCart([])`. -/
def clearCart (_currentCart : Cart) : Cart := []

/-- A call made on the cart store by the user interface. -/
inductive CartOp where
  | add (productId : Int)
  | update (productId : Int) (delta : Int)
  deriving DecidableEq, Repr

/-- The effect of one call on the cart. -/
def applyOp (cart : Cart) : CartOp → Cart
  | .add productId => addToCart productId cart
  | .update productId delta => updateQuantity productId delta cart

/-- The cart after a finite sequence of calls, applied in order. -/
def runOps (ops : List CartOp) (cart : Cart) : Cart :=
  ops.foldl applyOp cart

/-- The cart invariant: ids pairwise distinct and every quantity positive. -/
def CartInv (cart : Cart) : Prop :=
  (cart.map (·.id)).Nodup ∧ ∀ line ∈ cart, 0 < line.quantity

/-- Whether the cart has a line for `productId`. -/
def hasLine (productId : Int) (cart : Cart) : Prop :=
  ∃ line ∈ cart, line.id = productId

/-- Whether `productId` is the id of a catalog product. -/
def inCatalog (productId : Int) : Prop :=
  ∃ p ∈ PRODUCTS, p.id = productId

/-- The subtotal as the specification words it: the sum, over the cart lines
whose id is found in the catalog, of the product's price times the line's
quantity. -/
def subtotalSpec (cart : Cart) : ℚ :=
  ((cart.filter (fun line => (findProduct line.id).isSome)).map
    (fun line =>
      match findProduct line.id with
      | some product => product.price * (line.quantity : ℚ)
      | none => 0)).sum

/-! ## Checkout totals (`CheckoutPage`, lines 369-374) -/

/-- The constant `const SHIPPING = 7.50`. -/
def SHIPPING : ℚ := 7.50

/-- The constant `const TAX_RATE = 0.05`. -/
def TAX_RATE : ℚ := 0.05

/-- The tax: `const tax = subtotal * TAX_RATE`. -/
def checkoutTax (subtotal : ℚ) : ℚ := subtotal * TAX_RATE

/-- The total: `const total = subtotal > 0 ? subtotal + SHIPPING + tax : 0`. -/
def checkoutTotal (subtotal : ℚ) : ℚ :=
  if subtotal > 0 then subtotal + SHIPPING + checkoutTax subtotal else 0

/-- The shipping amount that enters the total: `SHIPPING` in the branch
`subtotal > 0`, nothing in the other branch. -/
def shippingApplied (subtotal : ℚ) : ℚ :=
  if subtotal > 0 then SHIPPING else 0

/-! ## Persistence (`useCartState`, lines 33-45)

The cart is written to `localStorage` under the key `aluraCart` with
`JSON.stringify` and read back at startup with `JSON.parse`.  Both are
platform functions; they are modelled here on the fragment of JSON that has
`null`, booleans, integer numbers, strings without escape sequences, arrays
and objects, with optional white space between tokens.  Numbers with a
fraction or an exponent and strings with escapes lie outside the fragment and
are rejected by `jsonParse`.  Texts are lists of characters. -/

/-- A value produced by `JSON.parse`. -/
inductive Json where
  | null
  | bool (b : Bool)
  | num (n : Int)
  | str (s : List Char)
  | arr (items : List Json)
  | obj (members : List (List Char × Json))

instance : Inhabited Json := ⟨Json.null⟩

/-- JSON white space: space, tab, line feed, carriage return. -/
def isWhitespace (c : Char) : Bool :=
  c == ' ' || c == '\t' || c == '\n' || c == '\r'

/-- Drops leading white space. -/
def skipWhitespace : List Char → List Char
  | [] => []
  | c :: cs => if isWhitespace c then skipWhitespace cs else c :: cs

/-- The value of a decimal digit character. -/
def digitValue (c : Char) : Option Nat :=
  if c == '0' then some 0 else if c == '1' then some 1 else if c == '2' then some 2
  else if c == '3' then some 3 else if c == '4' then some 4 else if c == '5' then some 5
  else if c == '6' then some 6 else if c == '7' then some 7 else if c == '8' then some 8
  else if c == '9' then some 9 else none

/-- Reads the longest run of digits, accumulating its decimal value. -/
def parseDigits (acc : Nat) : List Char → Nat × List Char
  | [] => (acc, [])
  | c :: cs =>
    match digitValue c with
    | some d => parseDigits (acc * 10 + d) cs
    | none => (acc, c :: cs)

/-- Reads a JSON integer part: a single `0`, or a nonzero digit followed by
digits. -/
def parseNatural : List Char → Option (Nat × List Char)
  | [] => none
  | c :: cs =>
    match digitValue c with
    | none => none
    | some 0 => some (0, cs)
    | some d => some (parseDigits d cs)

/-- Reads an integer number with an optional minus sign. -/
def parseNumber : List Char → Option (Int × List Char)
  | '-' :: cs => (parseNatural cs).map (fun r => (-(r.1 : Int), r.2))
  | cs => (parseNatural cs).map (fun r => ((r.1 : Int), r.2))

/-- Reads the characters of a string up to the closing quote; the opening
quote has been consumed. -/
def parseStringBody : List Char → Option (List Char × List Char)
  | [] => none
  | c :: cs =>
    if c == '"' then some ([], cs)
    else if c == '\\' || c.toNat < 32 then none
    else (parseStringBody cs).map (fun r => (c :: r.1, r.2))

/-- Consumes the given characters from the front of the input. -/
def expectChars : List Char → List Char → Option (List Char)
  | [], input => some input
  | _ :: _, [] => none
  | p :: ps, c :: cs => if p == c then expectChars ps cs else none

mutual
/-- Reads one JSON value; `fuel` bounds the nesting of recursive calls. -/
def parseValue : Nat → List Char → Option (Json × List Char)
  | 0, _ => none
  | fuel + 1, input =>
    match skipWhitespace input with
    | [] => none
    | c :: rest =>
      if c == 'n' then (expectChars ['u', 'l', 'l'] rest).map (fun r => (Json.null, r))
      else if c == 't' then
        (expectChars ['r', 'u', 'e'] rest).map (fun r => (Json.bool true, r))
      else if c == 'f' then
        (expectChars ['a', 'l', 's', 'e'] rest).map (fun r => (Json.bool false, r))
      else if c == '"' then (parseStringBody rest).map (fun r => (Json.str r.1, r.2))
      else if c == '[' then
        match skipWhitespace rest with
        | [] => none
        | d :: rest2 =>
          if d == ']' then some (Json.arr [], rest2)
          else (parseElements fuel (d :: rest2)).map (fun r => (Json.arr r.1, r.2))
      else if c == '{' then
        match skipWhitespace rest with
        | [] => none
        | d :: rest2 =>
          if d == '}' then some (Json.obj [], rest2)
          else (parseMembers fuel (d :: rest2)).map (fun r => (Json.obj r.1, r.2))
      else (parseNumber (c :: rest)).map (fun r => (Json.num r.1, r.2))
/-- Reads the elements of a non-empty array up to the closing bracket. -/
def parseElements : Nat → List Char → Option (List Json × List Char)
  | 0, _ => none
  | fuel + 1, input =>
    match parseValue fuel input with
    | none => none
    | some (v, rest) =>
      match skipWhitespace rest with
      | [] => none
      | c :: rest2 =>
        if c == ',' then (parseElements fuel rest2).map (fun r => (v :: r.1, r.2))
        else if c == ']' then some ([v], rest2)
        else none
/-- Reads the members of a non-empty object up to the closing brace. -/
def parseMembers : Nat → List Char → Option (List (List Char × Json) × List Char)
  | 0, _ => none
  | fuel + 1, input =>
    match skipWhitespace input with
    | [] => none
    | q :: rest =>
      if q == '"' then
        match parseStringBody rest with
        | none => none
        | some (key, rest2) =>
          match skipWhitespace rest2 with
          | [] => none
          | colon :: rest3 =>
            if colon == ':' then
              match parseValue fuel rest3 with
              | none => none
              | some (v, rest4) =>
                match skipWhitespace rest4 with
                | [] => none
                | c :: rest5 =>
                  if c == ',' then
                    (parseMembers fuel rest5).map (fun r => ((key, v) :: r.1, r.2))
                  else if c == '}' then some ([(key, v)], rest5)
                  else none
            else none
      else none
end

/-- The model of `JSON.parse(text)`: `none` stands for a thrown `SyntaxError`.
The fuel `2 * length + 2` exceeds the number of nested calls any text of that
length can cause. -/
def jsonParse (text : String) : Option Json :=
  match parseValue (2 * text.toList.length + 2) text.toList with
  | none => none
  | some (v, rest) => if (skipWhitespace rest).isEmpty then some v else none

/-- The outcome of `localStorage.getItem('aluraCart')`: the call throws, it
returns `null` (no value stored), or it returns the stored string. -/
inductive StoreRead where
  | throws
  | absent
  | value (text : String)

/-- The initialiser of the cart state (lines 33-41):
`storedCart ? JSON.parse(storedCart) : []` inside `try`, with `[]` returned by
the `catch` branch.  The empty string is the only falsy string. -/
def loadCart : StoreRead → Json
  | .throws => Json.arr []
  | .absent => Json.arr []
  | .value text =>
    if text = "" then Json.arr []
    else
      match jsonParse text with
      | some v => v
      | none => Json.arr []

/-- The character of a decimal digit. -/
def digitChar (d : Nat) : Char :=
  match d with
  | 0 => '0' | 1 => '1' | 2 => '2' | 3 => '3' | 4 => '4'
  | 5 => '5' | 6 => '6' | 7 => '7' | 8 => '8' | _ => '9'

/-- The decimal digits of `n`, most significant first; `fuel` bounds the
number of digits. -/
def natToDigits : Nat → Nat → List Char
  | 0, _ => []
  | fuel + 1, n =>
    if n < 10 then [digitChar n] else natToDigits fuel (n / 10) ++ [digitChar (n % 10)]

/-- The decimal numeral of a natural number. -/
def natToString (n : Nat) : List Char := natToDigits (n + 1) n

/-- The numeral `JSON.stringify` writes for an integer: decimal digits, with
a leading minus sign for a negative number. -/
def intToString : Int → List Char
  | Int.ofNat m => natToString m
  | Int.negSucc m => '-' :: natToString (m + 1)

/-- The text `JSON.stringify` writes for one cart line: the object with the
keys `id` and `quantity` in that order. -/
def stringifyLine (line : CartLine) : List Char :=
  ['{', '"', 'i', 'd', '"', ':'] ++ intToString line.id
    ++ [',', '"', 'q', 'u', 'a', 'n', 't', 'i', 't', 'y', '"', ':']
    ++ intToString line.quantity ++ ['}']

/-- Joins the element texts of an array with commas. -/
def joinWithComma : List (List Char) → List Char
  | [] => []
  | [x] => x
  | x :: y :: rest => x ++ ',' :: joinWithComma (y :: rest)

/-- The text of `JSON.stringify(cart)`. -/
def stringifyCart (cart : Cart) : List Char :=
  '[' :: joinWithComma (cart.map stringifyLine) ++ [']']

/-- The string written by the persistence effect (lines 43-45):
`localStorage.setItem('aluraCart', JSON.stringify(cart))`. -/
def persist (cart : Cart) : String := String.mk (stringifyCart cart)

/-- The parsed value that represents one cart line. -/
def lineToJson (line : CartLine) : Json :=
  Json.obj [(['i', 'd'], Json.num line.id),
    (['q', 'u', 'a', 'n', 't', 'i', 't', 'y'], Json.num line.quantity)]

/-- The parsed value that represents a cart. -/
def cartToJson (cart : Cart) : Json := Json.arr (cart.map lineToJson)

/-- Property read on the member list of a parsed object. -/
def getMember (key : List Char) : List (List Char × Json) → Option Json
  | [] => none
  | (k, v) :: rest => if k = key then some v else getMember key rest

/-- The cart line an element of the loaded array denotes: the reads `item.id`
and `item.quantity`, both of which must be integers. -/
def lineOfJson : Json → Option CartLine
  | Json.obj members =>
    match getMember ['i', 'd'] members,
      getMember ['q', 'u', 'a', 'n', 't', 'i', 't', 'y'] members with
    | some (Json.num i), some (Json.num q) => some ⟨i, q⟩
    | _, _ => none
  | _ => none

/-- The cart lines a list of loaded elements denotes. -/
def linesOfJson : List Json → Option Cart
  | [] => some []
  | item :: rest =>
    match lineOfJson item, linesOfJson rest with
    | some line, some lines => some (line :: lines)
    | _, _ => none

/-- The cart a loaded value denotes; `none` when the value is not an array
of `{id, quantity}` lines, in which case the array reductions of lines 47-54
have no cart to run on. -/
def cartOfJson : Json → Option Cart
  | Json.arr items => linesOfJson items
  | _ => none

/-- The value of a run of digits read left to right from `acc`. -/
def digitsFold (acc : Nat) (ds : List Char) : Nat :=
  ds.foldl (fun a c => a * 10 + (digitValue c).getD 0) acc

/-! ## Application state (`App`, lines 502-542, and `handleCheckout`, lines 392-404)

The state of `App` is the record of its `useState` cells together with the
cart of `useCartState`.  Two pieces of the environment that the handlers act
on are part of the record: the vertical scroll position (reset by
`navigate`) and the number of callbacks `() => navigate('home')` scheduled by
`handleCheckout` with `setTimeout(..., 100)` that have not yet run. -/

/-- The object `{ message, type }` held by the `notification` state. -/
structure Notification where
  message : String
  type : String
  deriving DecidableEq, Repr

/-- The state of the application. -/
structure AppState where
  page : String
  isCartOpen : Bool
  notification : Option Notification
  cart : Cart
  scrollY : Nat
  pendingHome : Nat
  deriving DecidableEq, Repr

/-- The state after the first render: `useState('home')`, `useState(false)`,
`useState(null)`, and the cart produced by the startup loader. -/
def initialApp (cart : Cart) : AppState :=
  { page := "home", isCartOpen := false, notification := none, cart := cart,
    scrollY := 0, pendingHome := 0 }

/-- The three page identifiers that `renderPage` distinguishes. -/
def PAGES : List String := ["home", "about", "checkout"]

/-- The handler `toggleCart` (line 508). -/
def toggleCart (s : AppState) : AppState :=
  { s with isCartOpen := !s.isCartOpen }

/-- The function `navigate` (lines 510-513): `setPage(newPage)` followed by
`window.scrollTo({ top: 0, ... })`. -/
def navigate (newPage : String) (s : AppState) : AppState :=
  { s with page := newPage, scrollY := 0 }

/-- The function `triggerNotification` (lines 515-517). -/
def triggerNotification (message type : String) (s : AppState) : AppState :=
  { s with notification := some { message := message, type := type } }

/-- The handler `handleAddToCart` (lines 519-522). -/
def handleAddToCart (productId : Int) (s : AppState) : AppState :=
  triggerNotification "Item added to bag." "success"
    { s with cart := addToCart productId s.cart }

/-- The confirmation message of `handleCheckout` (line 400). -/
def ORDER_PLACED : String := "Order placed successfully. Thank you for choosing Alúra."

/-- The handler `handleCheckout` (lines 392-404): `clearCart()`, the success
notification, and one more scheduled `navigate('home')`. -/
def handleCheckout (s : AppState) : AppState :=
  let cleared := { s with cart := clearCart s.cart }
  let notified := triggerNotification ORDER_PLACED "success" cleared
  { notified with pendingHome := notified.pendingHome + 1 }

/-- What `CheckoutPage` renders (lines 376-390): the empty-bag prompt when
`cart.length === 0`, the order form otherwise. -/
inductive CheckoutView where
  | emptyBag
  | orderForm
  deriving DecidableEq, Repr

/-- The branch `if (cart.length === 0)` of `CheckoutPage`. -/
def checkoutView (cart : Cart) : CheckoutView :=
  if cart.length = 0 then .emptyBag else .orderForm

/-- The component chosen by `renderPage`. -/
inductive View where
  | homePage
  | aboutPage
  | checkoutPage (view : CheckoutView)
  deriving DecidableEq, Repr

/-- The function `renderPage` (lines 525-542): a switch on `page` whose
default case is the home page. -/
def renderPage (s : AppState) : View :=
  if s.page = "home" then .homePage
  else if s.page = "about" then .aboutPage
  else if s.page = "checkout" then .checkoutPage (checkoutView s.cart)
  else .homePage

/-- The events the application reacts to: the clickable controls of the
interface, the form submission, and the two kinds of timer callbacks that
reach the state of `App`. -/
inductive AppEvent where
  | clickAbout
  | clickLogo
  | clickToggleCart
  | quantityMinus (productId : Int)
  | quantityPlus (productId : Int)
  | checkoutNow
  | addToBag (productId : Int)
  | continueShopping
  | submitOrder
  | contact
  | legal
  | homeTimerFires
  | notificationClosed
  | scrolled (y : Nat)
  deriving DecidableEq, Repr

/-- The reaction of the application to one event.  The `Checkout Now` button
carries `disabled={subtotal === 0}` (line 238), so its click does nothing at a
zero subtotal.  Which other controls are on screen in a given state is not
modelled: their events are accepted in every state. -/
def stepApp (s : AppState) : AppEvent → AppState
  | .clickAbout => navigate "about" s
  | .clickLogo => navigate "home" s
  | .clickToggleCart => toggleCart s
  | .quantityMinus productId => { s with cart := updateQuantity productId (-1) s.cart }
  | .quantityPlus productId => { s with cart := updateQuantity productId 1 s.cart }
  | .checkoutNow =>
    if calculateSubtotal s.cart = 0 then s else toggleCart (navigate "checkout" s)
  | .addToBag productId => handleAddToCart productId s
  | .continueShopping => navigate "home" s
  | .submitOrder => handleCheckout s
  | .contact => triggerNotification "Contact us: support@alura.com" "success" s
  | .legal =>
    triggerNotification "Terms of Service and Privacy Policy displayed in console."
      "success" s
  | .homeTimerFires =>
    if s.pendingHome = 0 then s
    else navigate "home" { s with pendingHome := s.pendingHome - 1 }
  | .notificationClosed => { s with notification := none }
  | .scrolled y => { s with scrollY := y }

/-- The state after a finite sequence of events, applied in order. -/
def runApp (events : List AppEvent) (s : AppState) : AppState :=
  events.foldl stepApp s

/-! ## Notification channel (`Notification`, lines 97-107, rendered at lines 562-568)

`App` renders `<Notification ... onClose={() => setNotification(null)} />`
while `notification` is not `null`.  The effect of the component starts a
3000 ms timer whose callback hides the box and starts a 300 ms timer that
calls `onClose`; the cleanup of the effect is `clearTimeout(timer)` for the
3000 ms timer only.  The arrow function passed as `onClose` is a new function
at every render of `App`, and `onClose` is the dependency of the effect: each
`setNotification({ message, type })` therefore runs the cleanup and the effect
again (or mounts the component and runs the effect for the first time), and
`setNotification(null)` unmounts the component and runs the cleanup.

Time is counted in milliseconds.  Every timer records, besides the time at
which it is due, the number of the notification for which it was started:
notifications are numbered 1, 2, 3, ... in the order of the `show` calls. -/

/-- A pending `setTimeout` callback. -/
structure Timer where
  due : Nat
  owner : Nat
  deriving DecidableEq, Repr

/-- The state of the notification channel: the clock, the `notification`
state of `App`, the number of `show` calls so far (the number of the current
notification), the `isVisible` state of the component, the pending 3000 ms
timer of the effect, and the pending 300 ms timers in the order in which they
were started. -/
structure Channel where
  now : Nat
  notification : Option Notification
  shown : Nat
  isVisible : Bool
  displayTimer : Option Timer
  fadeTimers : List Timer
  deriving DecidableEq, Repr

/-- An event of the channel, with the time at which it happens. -/
inductive ChannelEvent where
  | show (time : Nat) (message type : String)
  | displayFires (time : Nat)
  | fadeFires (time : Nat)
  deriving DecidableEq, Repr

/-- The channel before the first `show`. -/
def initialChannel : Channel :=
  { now := 0, notification := none, shown := 0, isVisible := false,
    displayTimer := none, fadeTimers := [] }

/-- One step of the channel; `none` when the event cannot happen (time would
run backwards, or the timer is not pending or not yet due).

* `show`: `setNotification({ message, type })`; the cleanup clears the pending
  3000 ms timer, the effect sets `isVisible` and starts a new one.
* `displayFires`: the 3000 ms callback, `setIsVisible(false)` and
  `setTimeout(onClose, 300)`.
* `fadeFires`: the oldest 300 ms callback, `onClose()`, which is
  `setNotification(null)`; when a notification is shown the component is
  unmounted and the cleanup clears the pending 3000 ms timer. -/
def stepChannel (c : Channel) : ChannelEvent → Option Channel
  | .show time message type =>
    if time < c.now then none
    else
      some { c with
        now := time
        notification := some { message := message, type := type }
        shown := c.shown + 1
        isVisible := true
        displayTimer := some { due := time + 3000, owner := c.shown + 1 } }
  | .displayFires time =>
    match c.displayTimer with
    | none => none
    | some timer =>
      if time < c.now ∨ time < timer.due then none
      else
        some { c with
          now := time
          isVisible := false
          displayTimer := none
          fadeTimers := c.fadeTimers ++ [{ due := time + 300, owner := timer.owner }] }
  | .fadeFires time =>
    match c.fadeTimers with
    | [] => none
    | timer :: rest =>
      if time < c.now ∨ time < timer.due then none
      else
        match c.notification with
        | none => some { c with now := time, fadeTimers := rest }
        | some _ =>
          some { c with
            now := time
            notification := none
            isVisible := false
            displayTimer := none
            fadeTimers := rest }

/-- The channel after a finite sequence of events; `none` when one of them
cannot happen. -/
def runChannel : List ChannelEvent → Channel → Option Channel
  | [], c => some c
  | event :: events, c =>
    match stepChannel c event with
    | none => none
    | some next => runChannel events next

/-- The pending 3000 ms timer, if any, was started for the notification that
is currently shown. -/
def DisplayTimerCurrent (c : Channel) : Prop :=
  ∀ timer, c.displayTimer = some timer → timer.owner = c.shown ∧ c.notification ≠ none

/-! ## Helper lemmas on the array helpers -/

theorem find_eq_none_of_forall {α : Type} (p : α → Bool) (l : List α)
    (h : ∀ x ∈ l, p x = false) : find p l = none := by
  induction l with
  | nil => rfl
  | cons x xs ih =>
    have hx : p x = false := h x (List.mem_cons_self x xs)
    have hxs : ∀ y ∈ xs, p y = false := fun y hy => h y (List.mem_cons_of_mem x hy)
    simp [find, hx, ih hxs]

theorem find_append_of_first {α : Type} (p : α → Bool) (l1 : List α) (x : α) (l2 : List α)
    (h1 : ∀ y ∈ l1, p y = false) (hx : p x = true) :
    find p (l1 ++ x :: l2) = some x := by
  induction l1 with
  | nil => simp [find, hx]
  | cons y ys ih =>
    have hy : p y = false := h1 y (List.mem_cons_self y ys)
    have hys : ∀ z ∈ ys, p z = false := fun z hz => h1 z (List.mem_cons_of_mem y hz)
    simp [find, hy, ih hys]

theorem find_some_mem {α : Type} (p : α → Bool) (l : List α) (x : α)
    (h : find p l = some x) : x ∈ l ∧ p x = true := by
  induction l with
  | nil => simp [find] at h
  | cons y ys ih =>
    by_cases hy : p y = true
    · simp [find, hy] at h
      subst h
      exact ⟨List.mem_cons_self _ _, hy⟩
    · simp [find, hy] at h
      exact ⟨List.mem_cons_of_mem _ (ih h).1, (ih h).2⟩

theorem findIndex_eq_none_of_forall {α : Type} (p : α → Bool) (l : List α)
    (h : ∀ x ∈ l, p x = false) : findIndex p l = none := by
  induction l with
  | nil => rfl
  | cons x xs ih =>
    have hx : p x = false := h x (List.mem_cons_self x xs)
    have hxs : ∀ y ∈ xs, p y = false := fun y hy => h y (List.mem_cons_of_mem x hy)
    simp [findIndex, hx, ih hxs]

theorem findIndex_append_of_first {α : Type} (p : α → Bool) (l1 : List α) (x : α)
    (l2 : List α) (h1 : ∀ y ∈ l1, p y = false) (hx : p x = true) :
    findIndex p (l1 ++ x :: l2) = some l1.length := by
  induction l1 with
  | nil => simp [findIndex, hx]
  | cons y ys ih =>
    have hy : p y = false := h1 y (List.mem_cons_self y ys)
    have hys : ∀ z ∈ ys, p z = false := fun z hz => h1 z (List.mem_cons_of_mem y hz)
    simp [findIndex, hy, ih hys]

theorem mapWithIndex_past {α : Type} (g : α → α) (l : List α) (k start : Nat)
    (h : k < start) :
    mapWithIndex (fun item index => if index == k then g item else item) l start = l := by
  induction l generalizing start with
  | nil => rfl
  | cons y ys ih =>
    have hne : (start == k) = false := by
      rw [beq_eq_false_iff_ne]; omega
    simp only [mapWithIndex, hne]
    rw [ih (start + 1) (by omega)]
    rfl

theorem mapWithIndex_at {α : Type} (g : α → α) (l1 : List α) (x : α) (l2 : List α)
    (start k : Nat) (hk : k = start + l1.length) :
    mapWithIndex (fun item index => if index == k then g item else item)
      (l1 ++ x :: l2) start = l1 ++ g x :: l2 := by
  induction l1 generalizing start with
  | nil =>
    have hk2 : (start == k) = true := by
      rw [beq_iff_eq]; simpa using hk.symm
    simp only [List.nil_append, mapWithIndex, hk2]
    rw [mapWithIndex_past g l2 k (start + 1) (by simp at hk; omega)]
    rfl
  | cons y ys ih =>
    have hne : (start == k) = false := by
      rw [beq_eq_false_iff_ne]; simp at hk; omega
    show mapWithIndex _ (y :: (ys ++ x :: l2)) start = y :: (ys ++ g x :: l2)
    simp only [mapWithIndex, hne]
    rw [ih (start + 1) (by simp at hk; omega)]
    rfl

theorem mapWithIndex_replace {α : Type} (g : α → α) (l1 : List α) (x : α) (l2 : List α) :
    mapWithIndex (fun item index => if index == l1.length then g item else item)
      (l1 ++ x :: l2) 0 = l1 ++ g x :: l2 :=
  mapWithIndex_at g l1 x l2 0 l1.length (by simp)

/-! ## Helper lemmas on the cart operations -/

theorem split_at_line (cart : Cart) (line : CartLine)
    (hnd : (cart.map (·.id)).Nodup) (hm : line ∈ cart) :
    ∃ l1 l2, cart = l1 ++ line :: l2 ∧ (∀ y ∈ l1, y.id ≠ line.id) ∧
      (∀ y ∈ l2, y.id ≠ line.id) := by
  obtain ⟨l1, l2, rfl⟩ := List.append_of_mem hm
  refine ⟨l1, l2, rfl, ?_, ?_⟩
  · intro y hy hid
    rw [List.map_append, List.nodup_append] at hnd
    exact hnd.2.2 (List.mem_map_of_mem (·.id) hy)
      (by rw [hid]; exact List.mem_map_of_mem (·.id) (List.mem_cons_self line l2))
  · intro y hy hid
    rw [List.map_append, List.nodup_append, List.map_cons, List.nodup_cons] at hnd
    exact hnd.2.1.1 (by rw [← hid]; exact List.mem_map_of_mem (·.id) hy)

theorem filter_ne_self (productId : Int) (l : Cart) (h : ∀ y ∈ l, y.id ≠ productId) :
    l.filter (fun item => item.id != productId) = l := by
  rw [List.filter_eq_self]
  intro y hy
  simpa using h y hy

theorem updateQuantity_absent (productId delta : Int) (cart : Cart)
    (h : ∀ y ∈ cart, y.id ≠ productId) : updateQuantity productId delta cart = cart := by
  have hf : findIndex (fun i : CartLine => i.id == productId) cart = none :=
    findIndex_eq_none_of_forall _ cart (fun y hy => by simpa using h y hy)
  simp [updateQuantity, hf]

theorem updateQuantity_at_first (productId delta q : Int) (l1 l2 : Cart)
    (h1 : ∀ y ∈ l1, y.id ≠ productId) :
    updateQuantity productId delta (l1 ++ ⟨productId, q⟩ :: l2) =
      if q + delta ≤ 0 then l1 ++ l2.filter (fun item => item.id != productId)
      else l1 ++ ⟨productId, q + delta⟩ :: l2 := by
  have hf : findIndex (fun i : CartLine => i.id == productId)
      (l1 ++ ⟨productId, q⟩ :: l2) = some l1.length :=
    findIndex_append_of_first _ l1 _ l2 (fun y hy => by simpa using h1 y hy) (by simp)
  have hg : (l1 ++ (⟨productId, q⟩ : CartLine) :: l2)[l1.length]? = some ⟨productId, q⟩ := by
    rw [List.getElem?_append_right (Nat.le_refl _)]
    simp
  unfold updateQuantity
  rw [hf]
  simp only [hg]
  by_cases hq : q + delta ≤ 0
  · simp only [hq, if_true]
    rw [List.filter_append, List.filter_cons, filter_ne_self productId l1 h1]
    simp
  · simp only [hq, if_false]
    exact mapWithIndex_replace (fun item => { item with quantity := q + delta }) l1 _ l2

theorem updateQuantity_at (productId delta q : Int) (l1 l2 : Cart)
    (h1 : ∀ y ∈ l1, y.id ≠ productId) (h2 : ∀ y ∈ l2, y.id ≠ productId) :
    updateQuantity productId delta (l1 ++ ⟨productId, q⟩ :: l2) =
      if q + delta ≤ 0 then l1 ++ l2 else l1 ++ ⟨productId, q + delta⟩ :: l2 := by
  rw [updateQuantity_at_first productId delta q l1 l2 h1, filter_ne_self productId l2 h2]

theorem split_at_first (productId : Int) (cart : Cart)
    (h : ∃ y ∈ cart, y.id = productId) :
    ∃ l1 q l2, cart = l1 ++ ⟨productId, q⟩ :: l2 ∧ ∀ y ∈ l1, y.id ≠ productId := by
  induction cart with
  | nil => simp at h
  | cons x xs ih =>
    by_cases hx : x.id = productId
    · refine ⟨[], x.quantity, xs, ?_, by simp⟩
      cases x
      simp only at hx
      simp [hx]
    · have hxs : ∃ y ∈ xs, y.id = productId := by
        obtain ⟨y, hy, hid⟩ := h
        rcases List.mem_cons.mp hy with hyx | hyxs
        · exact absurd (hyx ▸ hid) hx
        · exact ⟨y, hyxs, hid⟩
      obtain ⟨l1, q, l2, hcart, hl1⟩ := ih hxs
      refine ⟨x :: l1, q, l2, by rw [hcart]; rfl, ?_⟩
      intro y hy
      rcases List.mem_cons.mp hy with hyx | hyl
      · rw [hyx]; exact hx
      · exact hl1 y hyl

theorem foldl_add_eq_sum {α : Type} (f : α → ℚ) (l : List α) (a : ℚ) :
    l.foldl (fun sum item => sum + f item) a = a + (l.map f).sum := by
  induction l generalizing a with
  | nil => simp
  | cons x xs ih => simp [List.foldl_cons, ih, add_assoc]

theorem sum_filter_of_zero {α : Type} (f : α → ℚ) (p : α → Bool) (l : List α)
    (h : ∀ x, p x = false → f x = 0) :
    ((l.filter p).map f).sum = (l.map f).sum := by
  induction l with
  | nil => rfl
  | cons x xs ih =>
    cases hp : p x with
    | true => simp [List.filter_cons, hp, ih]
    | false => simp [List.filter_cons, hp, ih, h x hp]

theorem spacing_pos (fuel n : Nat) : 0 < spacing fuel n := by
  induction fuel generalizing n with
  | zero => simp [spacing]
  | succ fuel ih =>
    unfold spacing
    split_ifs
    · exact Nat.one_pos
    · have := ih (n / 2)
      omega

theorem spacing_le (fuel n : Nat) (h : 0 < n) : spacing fuel n ≤ n := by
  induction fuel generalizing n with
  | zero => simpa [spacing] using h
  | succ fuel ih =>
    unfold spacing
    split_ifs with hlt
    · exact h
    · have := ih (n / 2) (by omega)
      omega

theorem roundNat53_pos (n : Nat) (h : 0 < n) : 0 < roundNat53 n := by
  have hunit := spacing_pos n n
  have hq : 0 < n / spacing n n := Nat.div_pos (spacing_le n n h) hunit
  unfold roundNat53
  simp only
  split_ifs
  · exact h
  · exact Nat.mul_pos hq hunit
  · exact Nat.mul_pos (Nat.succ_pos _) hunit
  · exact Nat.mul_pos hq hunit
  · exact Nat.mul_pos (Nat.succ_pos _) hunit

theorem roundBinary64_exact (n : Int) (hlo : -9007199254740992 ≤ n)
    (hhi : n ≤ 9007199254740992) : roundBinary64 n = n := by
  cases n with
  | ofNat m =>
    have hm : m ≤ 9007199254740992 := by
      have : (m : Int) ≤ 9007199254740992 := hhi
      omega
    simp [roundBinary64, roundNat53, hm]
  | negSucc m =>
    have hm : m + 1 ≤ 9007199254740992 := by
      have : Int.negSucc m = -((m : Int) + 1) := rfl
      omega
    simp only [roundBinary64, roundNat53, hm, if_true]
    rfl

theorem roundBinary64_pos (n : Int) (h : 0 < n) : 0 < roundBinary64 n := by
  cases n with
  | ofNat m =>
    have hm : 0 < m := by
      have : (0 : Int) < (m : Int) := h
      omega
    have := roundNat53_pos m hm
    simp only [roundBinary64]
    exact Int.ofNat_lt.mpr this
  | negSucc m => exact absurd h (by simp [Int.negSucc_lt_zero])

theorem jsAdd_exact (a b : Int) (hlo : -9007199254740992 ≤ a + b)
    (hhi : a + b ≤ 9007199254740992) : jsAdd a b = a + b :=
  roundBinary64_exact (a + b) hlo hhi

theorem jsAdd_one_pos (q : Int) (h : 0 < q) : 0 < jsAdd q 1 :=
  roundBinary64_pos (q + 1) (by omega)

theorem map_increment_ne (productId : Int) (l : Cart) (h : ∀ y ∈ l, y.id ≠ productId) :
    l.map (fun item =>
      if item.id == productId then { item with quantity := jsAdd item.quantity 1 }
      else item) = l := by
  induction l with
  | nil => rfl
  | cons y ys ih =>
    have hy : (y.id == productId) = false := by
      simpa using h y (List.mem_cons_self y ys)
    simp only [List.map_cons, hy]
    rw [ih (fun z hz => h z (List.mem_cons_of_mem y hz))]
    rfl

theorem addToCart_unknown (productId : Int) (cart : Cart)
    (h : findProduct productId = none) : addToCart productId cart = cart := by
  simp [addToCart, h]

theorem addToCart_absent (productId : Int) (cart : Cart) (p : Product)
    (hp : findProduct productId = some p) (h : ∀ y ∈ cart, y.id ≠ productId) :
    addToCart productId cart = cart ++ [⟨productId, 1⟩] := by
  have hf : find (fun i : CartLine => i.id == productId) cart = none :=
    find_eq_none_of_forall _ cart (fun y hy => by simpa using h y hy)
  simp [addToCart, hp, hf]

theorem addToCart_at (productId q : Int) (l1 l2 : Cart) (p : Product)
    (hp : findProduct productId = some p)
    (h1 : ∀ y ∈ l1, y.id ≠ productId) (h2 : ∀ y ∈ l2, y.id ≠ productId) :
    addToCart productId (l1 ++ ⟨productId, q⟩ :: l2)
      = l1 ++ ⟨productId, jsAdd q 1⟩ :: l2 := by
  have hf : find (fun i : CartLine => i.id == productId) (l1 ++ ⟨productId, q⟩ :: l2)
      = some ⟨productId, q⟩ :=
    find_append_of_first _ l1 _ l2 (fun y hy => by simpa using h1 y hy) (by simp)
  unfold addToCart
  rw [hp]
  simp only [hf]
  rw [List.map_append, List.map_cons, map_increment_ne productId l1 h1,
    map_increment_ne productId l2 h2]
  simp

theorem inCatalog_iff_findProduct (productId : Int) :
    inCatalog productId ↔ ∃ p, findProduct productId = some p := by
  constructor
  · rintro ⟨p, hp, hid⟩
    cases hfp : findProduct productId with
    | some p0 => exact ⟨p0, rfl⟩
    | none =>
      exfalso
      simp only [findProduct, find, PRODUCTS] at hfp
      simp only [PRODUCTS, List.mem_cons, List.mem_singleton, List.not_mem_nil, or_false] at hp
      rcases hp with h | h | h | h | h | h <;> subst h <;> subst hid <;> simp at hfp
  · rintro ⟨p, hp⟩
    have := find_some_mem _ _ _ hp
    exact ⟨p, this.1, by simpa using this.2⟩

theorem hasLine_or_absent (productId : Int) (cart : Cart) :
    (∃ q, (⟨productId, q⟩ : CartLine) ∈ cart) ∨ ∀ y ∈ cart, y.id ≠ productId := by
  by_cases h : ∃ y ∈ cart, y.id = productId
  · obtain ⟨y, hy, hid⟩ := h
    left
    refine ⟨y.quantity, ?_⟩
    have : (⟨productId, y.quantity⟩ : CartLine) = y := by
      cases y; simp at hid; simp [hid]
    rw [this]; exact hy
  · right
    intro y hy hid
    exact h ⟨y, hy, hid⟩

theorem cartInv_nil : CartInv [] := by
  simp [CartInv]

theorem cartInv_replace (productId q q2 : Int) (l1 l2 : Cart)
    (h : CartInv (l1 ++ ⟨productId, q⟩ :: l2)) (hq : 0 < q2) :
    CartInv (l1 ++ ⟨productId, q2⟩ :: l2) := by
  obtain ⟨hnd, hpos⟩ := h
  refine ⟨by simpa using hnd, ?_⟩
  intro line hl
  rw [List.mem_append, List.mem_cons] at hl
  rcases hl with hl | hl | hl
  · exact hpos line (List.mem_append_left _ hl)
  · rw [hl]; exact hq
  · exact hpos line (List.mem_append_right _ (List.mem_cons_of_mem _ hl))

theorem cartInv_remove (x : CartLine) (l1 l2 : Cart) (h : CartInv (l1 ++ x :: l2)) :
    CartInv (l1 ++ l2) := by
  obtain ⟨hnd, hpos⟩ := h
  have hsub : List.Sublist (l1 ++ l2) (l1 ++ x :: l2) :=
    List.Sublist.append_left (List.sublist_cons_self x l2) l1
  exact ⟨hnd.sublist (hsub.map _), fun line hl => hpos line (hsub.subset hl)⟩

theorem cartInv_addToCart (cart : Cart) (productId : Int) (h : CartInv cart) :
    CartInv (addToCart productId cart) := by
  cases hp : findProduct productId with
  | none => rw [addToCart_unknown productId cart hp]; exact h
  | some p =>
    rcases hasLine_or_absent productId cart with ⟨q, hq⟩ | habs
    · obtain ⟨l1, l2, rfl, h1, h2⟩ := split_at_line cart ⟨productId, q⟩ h.1 hq
      rw [addToCart_at productId q l1 l2 p hp h1 h2]
      exact cartInv_replace productId q (jsAdd q 1) l1 l2 h
        (jsAdd_one_pos q (by have := h.2 _ hq; simpa using this))
    · rw [addToCart_absent productId cart p hp habs]
      obtain ⟨hnd, hpos⟩ := h
      refine ⟨?_, ?_⟩
      · rw [List.map_append, List.nodup_append]
        refine ⟨hnd, by simp, ?_⟩
        intro a ha hb
        simp only [List.map_cons, List.map_nil, List.mem_singleton] at hb
        obtain ⟨y, hy, hya⟩ := List.mem_map.mp ha
        exact habs y hy (hya.trans hb)
      · intro line hl
        rw [List.mem_append, List.mem_singleton] at hl
        rcases hl with hl | hl
        · exact hpos line hl
        · rw [hl]; exact Int.one_pos

theorem cartInv_updateQuantity (cart : Cart) (productId delta : Int) (h : CartInv cart) :
    CartInv (updateQuantity productId delta cart) := by
  rcases hasLine_or_absent productId cart with ⟨q, hq⟩ | habs
  · obtain ⟨l1, l2, rfl, h1, h2⟩ := split_at_line cart ⟨productId, q⟩ h.1 hq
    rw [updateQuantity_at productId delta q l1 l2 h1 h2]
    by_cases hle : q + delta ≤ 0
    · rw [if_pos hle]; exact cartInv_remove _ l1 l2 h
    · rw [if_neg hle]; exact cartInv_replace productId q (q + delta) l1 l2 h (by omega)
  · rw [updateQuantity_absent productId delta cart habs]; exact h

theorem cartInv_runOps (ops : List CartOp) (cart : Cart) (h : CartInv cart) :
    CartInv (runOps ops cart) := by
  induction ops generalizing cart with
  | nil => exact h
  | cons op rest ih =>
    have hstep : CartInv (applyOp cart op) := by
      cases op with
      | add productId => exact cartInv_addToCart cart productId h
      | update productId delta => exact cartInv_updateQuantity cart productId delta h
    exact ih (applyOp cart op) hstep

/-! ## Helper lemmas on the persistence model -/

theorem digitValue_digitChar (d : Nat) (h : d < 10) :
    digitValue (digitChar d) = some d := by
  have hall : ∀ k : Fin 10, digitValue (digitChar k.val) = some k.val := by decide
  exact hall ⟨d, h⟩

theorem digitValue_cases (c : Char) (d : Nat) (h : digitValue c = some d) :
    c = '0' ∨ c = '1' ∨ c = '2' ∨ c = '3' ∨ c = '4' ∨ c = '5' ∨ c = '6' ∨ c = '7'
      ∨ c = '8' ∨ c = '9' := by
  by_contra hne
  simp only [not_or] at hne
  obtain ⟨h0, h1, h2, h3, h4, h5, h6, h7, h8, h9⟩ := hne
  simp [digitValue, h0, h1, h2, h3, h4, h5, h6, h7, h8, h9] at h

theorem parseDigits_append (ds rest : List Char) (acc : Nat)
    (hds : ∀ c ∈ ds, ∃ d, digitValue c = some d)
    (hrest : ∀ c cs, rest = c :: cs → digitValue c = none) :
    parseDigits acc (ds ++ rest) = (digitsFold acc ds, rest) := by
  induction ds generalizing acc with
  | nil =>
    cases rest with
    | nil => rfl
    | cons c cs => simp [parseDigits, digitsFold, hrest c cs rfl]
  | cons x xs ih =>
    obtain ⟨d, hd⟩ := hds x (List.mem_cons_self x xs)
    simp only [List.cons_append, parseDigits, hd, List.append_eq]
    rw [ih (acc * 10 + d) (fun c hc => hds c (List.mem_cons_of_mem x hc))]
    simp [digitsFold, hd]

theorem natToDigits_digits (fuel n : Nat) :
    ∀ c ∈ natToDigits fuel n, ∃ d, digitValue c = some d := by
  induction fuel generalizing n with
  | zero => simp [natToDigits]
  | succ fuel ih =>
    intro c hc
    unfold natToDigits at hc
    split_ifs at hc with hlt
    · rw [List.mem_singleton] at hc
      exact ⟨n, by rw [hc]; exact digitValue_digitChar n hlt⟩
    · rw [List.mem_append, List.mem_singleton] at hc
      rcases hc with hc | hc
      · exact ih (n / 10) c hc
      · exact ⟨n % 10, by rw [hc]; exact digitValue_digitChar _ (Nat.mod_lt _ (by decide))⟩

theorem natToDigits_value (fuel n : Nat) (h : n < fuel) :
    digitsFold 0 (natToDigits fuel n) = n := by
  induction fuel generalizing n with
  | zero => omega
  | succ fuel ih =>
    unfold natToDigits
    split_ifs with hlt
    · simp [digitsFold, digitValue_digitChar n hlt]
    · have hrec := ih (n / 10) (by omega)
      unfold digitsFold at hrec ⊢
      rw [List.foldl_append, hrec]
      simp [digitValue_digitChar (n % 10) (Nat.mod_lt _ (by decide))]
      omega

theorem natToDigits_head (fuel n : Nat) (h : n < fuel) :
    ∃ c tail d, natToDigits fuel n = c :: tail ∧ digitValue c = some d ∧
      (d = 0 → n = 0 ∧ tail = []) := by
  induction fuel generalizing n with
  | zero => omega
  | succ fuel ih =>
    unfold natToDigits
    split_ifs with hlt
    · exact ⟨digitChar n, [], n, rfl, digitValue_digitChar n hlt, fun hd => ⟨hd, rfl⟩⟩
    · obtain ⟨c, tail, d, hrec, hd, hzero⟩ := ih (n / 10) (by omega)
      refine ⟨c, tail ++ [digitChar (n % 10)], d, by rw [hrec]; rfl, hd, ?_⟩
      intro hd0
      have := (hzero hd0).1
      omega

theorem parseNatural_natToString (n : Nat) (rest : List Char)
    (hrest : ∀ c cs, rest = c :: cs → digitValue c = none) :
    parseNatural (natToString n ++ rest) = some (n, rest) := by
  obtain ⟨c, tail, d, hs, hd, hzero⟩ := natToDigits_head (n + 1) n (Nat.lt_succ_self n)
  have hval := natToDigits_value (n + 1) n (Nat.lt_succ_self n)
  have hdig := natToDigits_digits (n + 1) n
  unfold natToString
  rw [hs] at hval hdig ⊢
  simp only [List.cons_append, parseNatural, hd]
  cases d with
  | zero =>
    obtain ⟨hn, ht⟩ := hzero rfl
    simp [hn, ht]
  | succ k =>
    simp only
    rw [parseDigits_append tail rest (k + 1)
      (fun c hc => hdig c (List.mem_cons_of_mem _ hc)) hrest]
    have : digitsFold (k + 1) tail = n := by
      rw [← hval]
      simp [digitsFold, hd]
    rw [this]


theorem natToString_head (n : Nat) :
    ∃ c tail d, natToString n = c :: tail ∧ digitValue c = some d := by
  obtain ⟨c, tail, d, hs, hd, _⟩ := natToDigits_head (n + 1) n (Nat.lt_succ_self n)
  exact ⟨c, tail, d, hs, hd⟩

theorem parseNumber_intToString (n : Int) (rest : List Char)
    (hrest : ∀ c cs, rest = c :: cs → digitValue c = none) :
    parseNumber (intToString n ++ rest) = some (n, rest) := by
  cases n with
  | ofNat m =>
    obtain ⟨c, tail, d, hs, hd⟩ := natToString_head m
    have hne : c ≠ '-' := by
      intro hc
      rw [hc] at hd
      have hnone : digitValue '-' = none := by decide
      rw [hnone] at hd
      exact absurd hd (by simp)
    have hp := parseNatural_natToString m rest hrest
    simp only [intToString]
    rw [hs] at hp ⊢
    simp only [List.cons_append] at hp ⊢
    unfold parseNumber
    split
    · rename_i heq
      exact absurd (List.cons.inj heq).1 hne
    · rw [hp]; rfl
  | negSucc m =>
    have hp := parseNatural_natToString (m + 1) rest hrest
    simp only [intToString, List.cons_append, parseNumber]
    rw [hp]
    rfl

/-- A value that starts with a digit or a minus sign is read as a number. -/
theorem parseValue_number (fuel : Nat) (n : Int) (rest : List Char)
    (hrest : ∀ c cs, rest = c :: cs → digitValue c = none) :
    parseValue (fuel + 1) (intToString n ++ rest) = some (Json.num n, rest) := by
  have hp := parseNumber_intToString n rest hrest
  have hstart : ∃ c tail, intToString n = c :: tail ∧
      (c = '-' ∨ c = '0' ∨ c = '1' ∨ c = '2' ∨ c = '3' ∨ c = '4' ∨ c = '5' ∨ c = '6'
        ∨ c = '7' ∨ c = '8' ∨ c = '9') := by
    cases n with
    | ofNat m =>
      obtain ⟨c, tail, d, hs, hd⟩ := natToString_head m
      exact ⟨c, tail, hs, Or.inr (digitValue_cases c d hd)⟩
    | negSucc m => exact ⟨'-', _, rfl, Or.inl rfl⟩
  obtain ⟨c, tail, hs, hc⟩ := hstart
  rw [hs] at hp ⊢
  simp only [List.cons_append] at hp ⊢
  rcases hc with h | h | h | h | h | h | h | h | h | h | h <;> subst h <;>
    simp [parseValue, skipWhitespace, isWhitespace, hp]


theorem parseValue_line (fuel : Nat) (line : CartLine) (rest : List Char) :
    parseValue (fuel + 4) (stringifyLine line ++ rest) = some (lineToJson line, rest) := by
  have hq : parseValue (fuel + 1) (intToString line.quantity ++ '}' :: rest)
      = some (Json.num line.quantity, '}' :: rest) :=
    parseValue_number fuel line.quantity ('}' :: rest)
      (fun c cs h => by
        have hc : c = '}' := ((List.cons.inj h).1).symm
        rw [hc]; decide)
  have hi : parseValue (fuel + 2) (intToString line.id ++
      (',' :: '"' :: 'q' :: 'u' :: 'a' :: 'n' :: 't' :: 'i' :: 't' :: 'y' :: '"' :: ':' ::
        (intToString line.quantity ++ '}' :: rest)))
      = some (Json.num line.id,
        ',' :: '"' :: 'q' :: 'u' :: 'a' :: 'n' :: 't' :: 'i' :: 't' :: 'y' :: '"' :: ':' ::
          (intToString line.quantity ++ '}' :: rest)) :=
    parseValue_number (fuel + 1) line.id _
      (fun c cs h => by
        have hc : c = ',' := ((List.cons.inj h).1).symm
        rw [hc]; decide)
  have e : stringifyLine line ++ rest =
      '{' :: '"' :: 'i' :: 'd' :: '"' :: ':' :: (intToString line.id ++
        (',' :: '"' :: 'q' :: 'u' :: 'a' :: 'n' :: 't' :: 'i' :: 't' :: 'y' :: '"' :: ':' ::
          (intToString line.quantity ++ '}' :: rest))) := by
    simp [stringifyLine, List.append_assoc]
  rw [e, parseValue]
  simp only [skipWhitespace, isWhitespace, Char.reduceBEq, Bool.or_self, Bool.false_eq_true,
    if_false, if_true]
  rw [parseMembers]
  simp only [skipWhitespace, isWhitespace, parseStringBody, Char.reduceBEq, Bool.or_self,
    Bool.false_eq_true, if_false, if_true, Char.reduceToNat, Nat.reduceLT, decide_False,
    Option.map_some']
  rw [hi]
  simp only [skipWhitespace, isWhitespace, Char.reduceBEq, Bool.or_self, Bool.false_eq_true,
    if_false, if_true]
  rw [parseMembers]
  simp only [skipWhitespace, isWhitespace, parseStringBody, Char.reduceBEq, Bool.or_self,
    Bool.false_eq_true, if_false, if_true, Char.reduceToNat, Nat.reduceLT, decide_False,
    Option.map_some']
  rw [hq]
  simp only [skipWhitespace, isWhitespace, Char.reduceBEq, Bool.or_self, Bool.false_eq_true,
    if_false, if_true, Option.map_some']
  rfl


theorem joinWithComma_cons (x : List Char) (y : List Char) (ys : List (List Char)) :
    joinWithComma (x :: y :: ys) = x ++ ',' :: joinWithComma (y :: ys) := rfl

theorem parseElements_lines (fuel : Nat) (line : CartLine) (lines : List CartLine)
    (rest : List Char) :
    parseElements (fuel + lines.length + 5)
        (joinWithComma ((line :: lines).map stringifyLine) ++ ']' :: rest)
      = some ((line :: lines).map lineToJson, rest) := by
  induction lines generalizing line with
  | nil =>
    have hv := parseValue_line fuel line (']' :: rest)
    rw [parseElements]
    simp only [List.map_cons, List.map_nil, joinWithComma, List.length_nil, Nat.add_zero]
    rw [hv]
    simp only [skipWhitespace, isWhitespace, Char.reduceBEq, Bool.or_self, Bool.false_eq_true,
      if_false, if_true]
  | cons next more ih =>
    have hv := parseValue_line (fuel + more.length + 1) line
      (',' :: (joinWithComma ((next :: more).map stringifyLine) ++ ']' :: rest))
    have hrec := ih next
    have e : joinWithComma ((line :: next :: more).map stringifyLine) ++ ']' :: rest
        = stringifyLine line ++
          (',' :: (joinWithComma ((next :: more).map stringifyLine) ++ ']' :: rest)) := by
      simp only [List.map_cons, joinWithComma_cons, List.append_assoc, List.cons_append]
    have ef : fuel + (next :: more).length + 5 = (fuel + more.length + 1 + 4) + 1 := by
      simp only [List.length_cons]; omega
    have ef2 : fuel + more.length + 1 + 4 = fuel + more.length + 5 := by omega
    rw [e, ef, parseElements, hv]
    simp only [skipWhitespace, isWhitespace, Char.reduceBEq, Bool.or_self, Bool.false_eq_true,
      if_false, if_true]
    rw [ef2, hrec]
    rfl


theorem stringifyLine_head (line : CartLine) :
    ∃ tail, stringifyLine line = '{' :: tail :=
  ⟨_, rfl⟩

theorem joinWithComma_head (line : CartLine) (lines : List CartLine) :
    ∃ tail, joinWithComma ((line :: lines).map stringifyLine) = '{' :: tail := by
  cases lines with
  | nil => exact ⟨_, rfl⟩
  | cons next more => exact ⟨_, rfl⟩

theorem joinWithComma_length (lines : List CartLine) :
    lines.length ≤ (joinWithComma (lines.map stringifyLine)).length := by
  induction lines with
  | nil => simp
  | cons line rest ih =>
    cases rest with
    | nil => simp [joinWithComma, stringifyLine]
    | cons next more =>
      simp only [List.map_cons, joinWithComma_cons, List.length_append, List.length_cons]
        at ih ⊢
      omega

theorem parseValue_cart (fuel : Nat) (cart : Cart) :
    parseValue (fuel + cart.length + 6) (stringifyCart cart) = some (cartToJson cart, []) := by
  cases cart with
  | nil => rw [parseValue]; rfl
  | cons line lines =>
    obtain ⟨tail, ht⟩ := joinWithComma_head line lines
    have he := parseElements_lines (fuel + 1) line lines []
    have ef : fuel + (line :: lines).length + 6 = (fuel + 1 + lines.length + 5) + 1 := by
      simp only [List.length_cons]; omega
    unfold stringifyCart
    rw [ht] at he ⊢
    rw [ef, parseValue]
    simp only [skipWhitespace, isWhitespace, Char.reduceBEq, Bool.or_self, Bool.false_eq_true,
      if_false, if_true, List.cons_append, List.append_eq]
    rw [List.cons_append] at he
    rw [he]
    rfl

theorem lineOfJson_lineToJson (line : CartLine) : lineOfJson (lineToJson line) = some line := by
  cases line
  simp [lineOfJson, lineToJson, getMember]

theorem cartOfJson_cartToJson (cart : Cart) : cartOfJson (cartToJson cart) = some cart := by
  unfold cartToJson cartOfJson
  induction cart with
  | nil => rfl
  | cons line rest ih =>
    simp only [List.map_cons, linesOfJson, lineOfJson_lineToJson]
    simp only at ih
    rw [ih]

theorem persist_ne_empty (cart : Cart) : persist cart ≠ "" := by
  intro h
  have := congrArg String.toList h
  simp [persist, stringifyCart] at this

theorem loadCart_persist (cart : Cart) :
    loadCart (.value (persist cart)) = cartToJson cart := by
  have hlen : cart.length + 2 ≤ (stringifyCart cart).length := by
    have := joinWithComma_length cart
    simp only [stringifyCart, List.length_cons, List.length_append, List.length_nil]
    omega
  have hfuel : 2 * (stringifyCart cart).length + 2
      = (2 * (stringifyCart cart).length + 2 - (cart.length + 6)) + cart.length + 6 := by
    omega
  have hparse : jsonParse (persist cart) = some (cartToJson cart) := by
    unfold jsonParse
    have ht : (persist cart).toList = stringifyCart cart := rfl
    rw [ht, hfuel, parseValue_cart]
    rfl
  unfold loadCart
  simp only [persist_ne_empty cart, if_false, hparse]

/-! ## Helper lemmas on counts, subtotals and reachable carts -/

theorem foldl_add_int_eq_sum {α : Type} (f : α → Int) (l : List α) (a : Int) :
    l.foldl (fun sum item => sum + f item) a = a + (l.map f).sum := by
  induction l generalizing a with
  | nil => simp
  | cons x xs ih => simp [List.foldl_cons, ih, add_assoc]

theorem calculateSubtotal_eq_sum (cart : Cart) :
    calculateSubtotal cart =
      (cart.map (fun line =>
        match findProduct line.id with
        | some product => product.price * (line.quantity : ℚ)
        | none => 0)).sum := by
  unfold calculateSubtotal
  rw [foldl_add_eq_sum]
  simp

theorem sum_map_nonneg {α : Type} (f : α → ℚ) (l : List α) (h : ∀ x ∈ l, 0 < f x) :
    0 ≤ (l.map f).sum := by
  induction l with
  | nil => simp
  | cons x xs ih =>
    have hx := h x (List.mem_cons_self x xs)
    have hxs := ih (fun y hy => h y (List.mem_cons_of_mem x hy))
    simp only [List.map_cons, List.sum_cons]
    linarith

theorem sum_map_pos {α : Type} (f : α → ℚ) (l : List α) (h : ∀ x ∈ l, 0 < f x)
    (hne : l ≠ []) : 0 < (l.map f).sum := by
  cases l with
  | nil => exact absurd rfl hne
  | cons x xs =>
    have hx := h x (List.mem_cons_self x xs)
    have hxs := sum_map_nonneg f xs (fun y hy => h y (List.mem_cons_of_mem x hy))
    simp only [List.map_cons, List.sum_cons]
    linarith

theorem findProduct_price_pos (productId : Int) (p : Product)
    (h : findProduct productId = some p) : 0 < p.price := by
  have hm := (find_some_mem _ _ _ h).1
  simp only [PRODUCTS, List.mem_cons, List.mem_singleton, List.not_mem_nil, or_false] at hm
  rcases hm with e | e | e | e | e | e <;> rw [e] <;> norm_num

theorem subtotal_pos_iff (cart : Cart) (hpos : ∀ line ∈ cart, 0 < line.quantity)
    (hcat : ∀ line ∈ cart, inCatalog line.id) :
    cart ≠ [] ↔ 0 < calculateSubtotal cart := by
  rw [calculateSubtotal_eq_sum]
  constructor
  · intro hne
    apply sum_map_pos _ cart _ hne
    intro line hl
    obtain ⟨p, hp⟩ := (inCatalog_iff_findProduct line.id).mp (hcat line hl)
    have hq : (0 : ℚ) < (line.quantity : ℚ) := by exact_mod_cast hpos line hl
    simp only [hp]
    exact mul_pos (findProduct_price_pos line.id p hp) hq
  · intro h hnil
    rw [hnil] at h
    simp at h

theorem checkoutTotal_eq_zero_iff (s : ℚ) (hs : 0 ≤ s) : checkoutTotal s = 0 ↔ s = 0 := by
  unfold checkoutTotal
  constructor
  · intro h
    by_contra hne
    have hpos : 0 < s := lt_of_le_of_ne hs (Ne.symm hne)
    rw [if_pos hpos] at h
    have ht : 0 ≤ checkoutTax s := by
      unfold checkoutTax TAX_RATE
      exact mul_nonneg hs (by norm_num)
    have hship : (0 : ℚ) < SHIPPING := by
      unfold SHIPPING
      norm_num
    linarith
  · intro h
    rw [h]
    simp

theorem catalog_addToCart (cart : Cart) (productId : Int) (hinv : CartInv cart)
    (hcat : ∀ line ∈ cart, inCatalog line.id) :
    ∀ line ∈ addToCart productId cart, inCatalog line.id := by
  cases hp : findProduct productId with
  | none => rw [addToCart_unknown productId cart hp]; exact hcat
  | some p =>
    have hin : inCatalog productId := (inCatalog_iff_findProduct productId).mpr ⟨p, hp⟩
    rcases hasLine_or_absent productId cart with ⟨q, hq⟩ | habs
    · obtain ⟨l1, l2, rfl, h1, h2⟩ := split_at_line cart ⟨productId, q⟩ hinv.1 hq
      rw [addToCart_at productId q l1 l2 p hp h1 h2]
      intro line hl
      rw [List.mem_append, List.mem_cons] at hl
      rcases hl with hl | hl | hl
      · exact hcat line (List.mem_append_left _ hl)
      · rw [hl]; exact hin
      · exact hcat line (List.mem_append_right _ (List.mem_cons_of_mem _ hl))
    · rw [addToCart_absent productId cart p hp habs]
      intro line hl
      rw [List.mem_append, List.mem_singleton] at hl
      rcases hl with hl | hl
      · exact hcat line hl
      · rw [hl]; exact hin

theorem catalog_updateQuantity (cart : Cart) (productId delta : Int) (hinv : CartInv cart)
    (hcat : ∀ line ∈ cart, inCatalog line.id) :
    ∀ line ∈ updateQuantity productId delta cart, inCatalog line.id := by
  rcases hasLine_or_absent productId cart with ⟨q, hq⟩ | habs
  · have hin : inCatalog productId := hcat ⟨productId, q⟩ hq
    obtain ⟨l1, l2, rfl, h1, h2⟩ := split_at_line cart ⟨productId, q⟩ hinv.1 hq
    rw [updateQuantity_at productId delta q l1 l2 h1 h2]
    intro line hl
    by_cases hle : q + delta ≤ 0
    · rw [if_pos hle, List.mem_append] at hl
      rcases hl with hl | hl
      · exact hcat line (List.mem_append_left _ hl)
      · exact hcat line (List.mem_append_right _ (List.mem_cons_of_mem _ hl))
    · rw [if_neg hle, List.mem_append, List.mem_cons] at hl
      rcases hl with hl | hl | hl
      · exact hcat line (List.mem_append_left _ hl)
      · rw [hl]; exact hin
      · exact hcat line (List.mem_append_right _ (List.mem_cons_of_mem _ hl))
  · rw [updateQuantity_absent productId delta cart habs]; exact hcat

theorem catalog_runOps (ops : List CartOp) (cart : Cart) (hinv : CartInv cart)
    (hcat : ∀ line ∈ cart, inCatalog line.id) :
    CartInv (runOps ops cart) ∧ ∀ line ∈ runOps ops cart, inCatalog line.id := by
  induction ops generalizing cart with
  | nil => exact ⟨hinv, hcat⟩
  | cons op rest ih =>
    cases op with
    | add productId =>
      exact ih (addToCart productId cart) (cartInv_addToCart cart productId hinv)
        (catalog_addToCart cart productId hinv hcat)
    | update productId delta =>
      exact ih (updateQuantity productId delta cart)
        (cartInv_updateQuantity cart productId delta hinv)
        (catalog_updateQuantity cart productId delta hinv hcat)

/-! ## Helper lemmas on the application state and the notification channel -/

theorem stepApp_pendingHome (s : AppState) (event : AppEvent)
    (h : event ≠ .homeTimerFires) : s.pendingHome ≤ (stepApp s event).pendingHome := by
  cases event with
  | homeTimerFires => exact absurd rfl h
  | checkoutNow =>
    simp only [stepApp]
    split_ifs <;> simp [toggleCart, navigate]
  | submitOrder => simp [stepApp, handleCheckout, triggerNotification]
  | _ => simp [stepApp, navigate, toggleCart, handleAddToCart, triggerNotification]

theorem runApp_pendingHome (events : List AppEvent) (s : AppState)
    (h : ∀ event ∈ events, event ≠ .homeTimerFires) :
    s.pendingHome ≤ (runApp events s).pendingHome := by
  induction events generalizing s with
  | nil => exact Nat.le_refl _
  | cons event rest ih =>
    have h1 := stepApp_pendingHome s event (h event (List.mem_cons_self event rest))
    have h2 := ih (stepApp s event) (fun e he => h e (List.mem_cons_of_mem event he))
    exact Nat.le_trans h1 h2

theorem stepApp_page (s : AppState) (event : AppEvent) (h : s.page ∈ PAGES) :
    (stepApp s event).page ∈ PAGES := by
  cases event with
  | checkoutNow =>
    simp only [stepApp]
    split_ifs
    · exact h
    · simp [toggleCart, navigate, PAGES]
  | homeTimerFires =>
    simp only [stepApp]
    split_ifs
    · exact h
    · simp [navigate, PAGES]
  | clickAbout => simp [stepApp, navigate, PAGES]
  | clickLogo => simp [stepApp, navigate, PAGES]
  | continueShopping => simp [stepApp, navigate, PAGES]
  | clickToggleCart => exact h
  | quantityMinus productId => exact h
  | quantityPlus productId => exact h
  | addToBag productId => exact h
  | submitOrder => exact h
  | contact => exact h
  | legal => exact h
  | notificationClosed => exact h
  | scrolled y => exact h

theorem runApp_page (events : List AppEvent) (s : AppState) (h : s.page ∈ PAGES) :
    (runApp events s).page ∈ PAGES := by
  induction events generalizing s with
  | nil => exact h
  | cons event rest ih => exact ih (stepApp s event) (stepApp_page s event h)

theorem displayTimerCurrent_step (c next : Channel) (event : ChannelEvent)
    (hstep : stepChannel c event = some next) (h : DisplayTimerCurrent c) :
    DisplayTimerCurrent next := by
  cases event with
  | «show» time message type =>
    simp only [stepChannel] at hstep
    split_ifs at hstep
    simp only [Option.some.injEq] at hstep
    subst hstep
    intro timer ht
    simp only [Option.some.injEq] at ht
    subst ht
    simp
  | displayFires time =>
    simp only [stepChannel] at hstep
    split at hstep
    · exact absurd hstep (by simp)
    · split_ifs at hstep
      simp only [Option.some.injEq] at hstep
      subst hstep
      intro timer ht
      simp at ht
  | fadeFires time =>
    simp only [stepChannel] at hstep
    split at hstep
    · exact absurd hstep (by simp)
    · split_ifs at hstep
      split at hstep
      · rename_i hnone
        simp only [Option.some.injEq] at hstep
        subst hstep
        intro timer ht
        exact absurd hnone (h timer ht).2
      · simp only [Option.some.injEq] at hstep
        subst hstep
        intro timer ht
        simp at ht

/-- The 3000 ms timer is never stale: in every state the channel can reach, a
pending 3000 ms timer belongs to the notification that is currently shown. -/
theorem displayTimerCurrent_run (events : List ChannelEvent) (c final : Channel)
    (h : DisplayTimerCurrent c) (hrun : runChannel events c = some final) :
    DisplayTimerCurrent final := by
  induction events generalizing c with
  | nil =>
    simp only [runChannel, Option.some.injEq] at hrun
    rw [← hrun]; exact h
  | cons event rest ih =>
    simp only [runChannel] at hrun
    split at hrun
    · exact absurd hrun (by simp)
    · rename_i next hnext
      exact ih next (displayTimerCurrent_step c next event hnext h) hrun

/-! ## The claims -/

/-- C1. Cart invariant: the predicate "ids pairwise distinct and all
quantities positive" holds for the empty cart, is preserved by `addToCart` and
by `updateQuantity` (any product id, any integer delta), and therefore holds
after every finite sequence of such calls started from the empty cart. -/
theorem cart_invariant :
    CartInv [] ∧
    (∀ (cart : Cart) (productId : Int),
      CartInv cart → CartInv (addToCart productId cart)) ∧
    (∀ (cart : Cart) (productId delta : Int),
      CartInv cart → CartInv (updateQuantity productId delta cart)) ∧
    (∀ ops : List CartOp, CartInv (runOps ops [])) :=
  ⟨cartInv_nil, cartInv_addToCart, cartInv_updateQuantity,
    fun ops => cartInv_runOps ops [] cartInv_nil⟩

/-- C1, at a concrete run: the invariant holds after two adds of product 101,
a decrement of it, an add of product 102 and an update of an absent id. -/
theorem cart_invariant_witness :
    runOps [.add 101, .add 101, .update 101 (-1), .add 102, .update 7 5] []
        = [⟨101, 1⟩, ⟨102, 1⟩] ∧
      CartInv (runOps [.add 101, .add 101, .update 101 (-1), .add 102, .update 7 5] []) :=
  ⟨by decide, cart_invariant.2.2.2 _⟩

/-- C2, as amended. `addToCart` on a cart with pairwise-distinct ids and a
catalog product: if the cart has a line for the product with quantity `q`, the
result has the same length, all other lines stay where they are, and that
line's quantity is `q + 1` rounded to binary64, which is exactly `q + 1`
whenever `-2^53 ≤ q < 2^53`; if the cart has no line for the product, the line
`{id, quantity: 1}` is appended at the end. -/
theorem addToCart_spec (cart : Cart) (productId : Int)
    (hnd : (cart.map (·.id)).Nodup) (hcat : inCatalog productId) :
    (∀ q, (⟨productId, q⟩ : CartLine) ∈ cart →
      ∃ l1 l2, cart = l1 ++ ⟨productId, q⟩ :: l2 ∧
        addToCart productId cart = l1 ++ ⟨productId, jsAdd q 1⟩ :: l2 ∧
        (addToCart productId cart).length = cart.length ∧
        (-(2 ^ 53 : Int) ≤ q → q < 2 ^ 53 →
          addToCart productId cart = l1 ++ ⟨productId, q + 1⟩ :: l2)) ∧
    (¬ hasLine productId cart →
      addToCart productId cart = cart ++ [⟨productId, 1⟩]) := by
  obtain ⟨p, hp⟩ := (inCatalog_iff_findProduct productId).mp hcat
  constructor
  · intro q hq
    obtain ⟨l1, l2, hcart, h1, h2⟩ := split_at_line cart ⟨productId, q⟩ hnd hq
    have hadd : addToCart productId cart = l1 ++ ⟨productId, jsAdd q 1⟩ :: l2 := by
      rw [hcart]; exact addToCart_at productId q l1 l2 p hp h1 h2
    refine ⟨l1, l2, hcart, hadd, ?_, ?_⟩
    · rw [hadd, hcart]; simp
    · intro hlo hhi
      have e : (2 : Int) ^ 53 = 9007199254740992 := by norm_num
      rw [e] at hlo hhi
      rw [hadd, jsAdd_exact q 1 (by omega) (by omega)]
  · intro hno
    exact addToCart_absent productId cart p hp (fun y hy hid => hno ⟨y, hy, hid⟩)

/-- C2, the scenario of the specification: `[]` becomes `[{id:101, quantity:1}]`
and then `[{id:101, quantity:2}]`. -/
theorem addToCart_spec_witness :
    addToCart 101 [] = [] ++ [⟨101, 1⟩] ∧
    (∃ l1 l2, [(⟨101, 1⟩ : CartLine)] = l1 ++ ⟨101, 1⟩ :: l2 ∧
      addToCart 101 [⟨101, 1⟩] = l1 ++ ⟨101, 1 + 1⟩ :: l2) ∧
    addToCart 101 [⟨101, 1⟩] = [⟨101, 2⟩] := by
  refine ⟨(addToCart_spec [] 101 (by simp) ⟨_, List.mem_cons_self _ _, rfl⟩).2
      (by simp [hasLine]), ?_, by decide⟩
  obtain ⟨l1, l2, hcart, _, _, hexact⟩ :=
    (addToCart_spec [⟨101, 1⟩] 101 (by simp) ⟨_, List.mem_cons_self _ _, rfl⟩).1 1
      (by simp)
  exact ⟨l1, l2, hcart, hexact (by norm_num) (by norm_num)⟩

/-- C2 as first stated fails at the cart `[{id:101, quantity:2^53}]`: the ids
are distinct, 101 is a catalog id and the cart has a line for it, yet
`addToCart(101)` returns the cart with the quantity still `2^53`, because
`2^53 + 1` is not a binary64 number; no line has quantity `2^53 + 1`. -/
theorem addToCart_spec_fails_at_two53 :
    ([(⟨101, 9007199254740992⟩ : CartLine)].map (·.id)).Nodup ∧
    inCatalog 101 ∧
    (⟨101, 9007199254740992⟩ : CartLine) ∈ [(⟨101, 9007199254740992⟩ : CartLine)] ∧
    addToCart 101 [⟨101, 9007199254740992⟩] = [⟨101, 9007199254740992⟩] ∧
    ¬ ∃ l1 l2,
        [(⟨101, 9007199254740992⟩ : CartLine)] = l1 ++ ⟨101, 9007199254740992⟩ :: l2 ∧
        addToCart 101 [⟨101, 9007199254740992⟩]
          = l1 ++ ⟨101, 9007199254740992 + 1⟩ :: l2 := by
  have heval : addToCart 101 [⟨101, 9007199254740992⟩] = [⟨101, 9007199254740992⟩] := by
    decide
  refine ⟨by simp, by simp [inCatalog, PRODUCTS], by simp, heval, ?_⟩
  rintro ⟨l1, l2, _, h⟩
  rw [heval] at h
  have hm : (⟨101, 9007199254740992 + 1⟩ : CartLine) ∈
      [(⟨101, 9007199254740992⟩ : CartLine)] := by
    rw [h]; simp
  rw [List.mem_singleton] at hm
  exact absurd hm (by decide)

/-- C3. `updateQuantity` on a cart with pairwise-distinct ids that has the line
`{id: productId, quantity: q}`: when `q + delta ≤ 0` exactly that line is
removed and the others keep their order; when `q + delta > 0` the line keeps
its position with quantity `q + delta` and every other line is unchanged. -/
theorem updateQuantity_spec (cart : Cart) (productId q delta : Int)
    (hnd : (cart.map (·.id)).Nodup) (hm : (⟨productId, q⟩ : CartLine) ∈ cart) :
    ∃ l1 l2, cart = l1 ++ ⟨productId, q⟩ :: l2 ∧
      (q + delta ≤ 0 → updateQuantity productId delta cart = l1 ++ l2) ∧
      (0 < q + delta →
        updateQuantity productId delta cart = l1 ++ ⟨productId, q + delta⟩ :: l2 ∧
        (updateQuantity productId delta cart).length = cart.length ∧
        (updateQuantity productId delta cart).map (·.id) = cart.map (·.id)) := by
  obtain ⟨l1, l2, hcart, h1, h2⟩ := split_at_line cart ⟨productId, q⟩ hnd hm
  have hu := updateQuantity_at productId delta q l1 l2 h1 h2
  refine ⟨l1, l2, hcart, ?_, ?_⟩
  · intro hle
    rw [hcart, hu, if_pos hle]
  · intro hpos
    have hne : ¬ (q + delta ≤ 0) := by omega
    rw [hcart, hu, if_neg hne]
    simp

/-- C3, the scenario of the specification: `updateQuantity(101, -1)` on
`[{id:101, quantity:1}]` gives the empty cart. -/
theorem updateQuantity_spec_witness :
    (∃ l1 l2, [(⟨101, 1⟩ : CartLine)] = l1 ++ ⟨101, 1⟩ :: l2 ∧
      ((1 : Int) + (-1) ≤ 0 → updateQuantity 101 (-1) [⟨101, 1⟩] = l1 ++ l2) ∧
      (0 < (1 : Int) + (-1) →
        updateQuantity 101 (-1) [⟨101, 1⟩] = l1 ++ ⟨101, 1 + (-1)⟩ :: l2 ∧
        (updateQuantity 101 (-1) [⟨101, 1⟩]).length = [(⟨101, 1⟩ : CartLine)].length ∧
        (updateQuantity 101 (-1) [⟨101, 1⟩]).map (·.id)
          = [(⟨101, 1⟩ : CartLine)].map (·.id))) ∧
    updateQuantity 101 (-1) [⟨101, 1⟩] = [] :=
  ⟨updateQuantity_spec [⟨101, 1⟩] 101 1 (-1) (by simp) (by simp), by decide⟩

/-- C4. For every cart, `calculateSubtotal` equals the sum, over the lines whose
id is found in the catalog, of price times quantity; appending a line whose id
is not in the catalog does not change it; the subtotal of
`[{id:101, quantity:1}]` is 49 and of `[{id:101, quantity:2}]` is 98. -/
theorem calculateSubtotal_spec :
    (∀ cart : Cart, calculateSubtotal cart = subtotalSpec cart) ∧
    (∀ (cart : Cart) (line : CartLine), ¬ inCatalog line.id →
      calculateSubtotal (cart ++ [line]) = calculateSubtotal cart ∧
      calculateSubtotal (line :: cart) = calculateSubtotal cart) ∧
    calculateSubtotal [⟨101, 1⟩] = 49 ∧ calculateSubtotal [⟨101, 2⟩] = 98 := by
  have hsum : ∀ cart : Cart, calculateSubtotal cart =
      (cart.map (fun line =>
        match findProduct line.id with
        | some product => product.price * (line.quantity : ℚ)
        | none => 0)).sum := by
    intro cart
    unfold calculateSubtotal
    rw [foldl_add_eq_sum]
    simp
  refine ⟨?_, ?_, ?_, ?_⟩
  · intro cart
    rw [hsum, subtotalSpec, sum_filter_of_zero]
    intro x hx
    cases hfx : findProduct x.id with
    | none => rfl
    | some p => simp [hfx] at hx
  · intro cart line hline
    have hnone : findProduct line.id = none := by
      cases hfx : findProduct line.id with
      | none => rfl
      | some p => exact absurd ((inCatalog_iff_findProduct line.id).mpr ⟨p, hfx⟩) hline
    constructor
    · rw [hsum, hsum]; simp [hnone]
    · rw [hsum, hsum]; simp [hnone]
  · norm_num [calculateSubtotal, findProduct, find, PRODUCTS]
  · norm_num [calculateSubtotal, findProduct, find, PRODUCTS]

/-- C4, with a line whose id (999) is not in the catalog: it contributes 0. -/
theorem calculateSubtotal_spec_witness :
    calculateSubtotal ([⟨101, 2⟩] ++ [⟨999, 3⟩]) = calculateSubtotal [⟨101, 2⟩] ∧
    calculateSubtotal (⟨999, 3⟩ :: [⟨101, 2⟩]) = calculateSubtotal [⟨101, 2⟩] :=
  calculateSubtotal_spec.2.1 [⟨101, 2⟩] ⟨999, 3⟩
    (by simp [inCatalog, PRODUCTS])

/-- C5. Checkout totals in exact rational arithmetic, for a subtotal `s ≥ 0`:
the tax is `s * 0.05`; the flat shipping of 7.50 enters the total only when
`s > 0`; the total is `s + 7.50 + tax` when `s > 0` and `0` when `s = 0`. -/
theorem checkout_totals (s : ℚ) (hs : 0 ≤ s) :
    checkoutTax s = s * (5 / 100) ∧
    (0 < s → shippingApplied s = 15 / 2 ∧ checkoutTotal s = s + 15 / 2 + checkoutTax s) ∧
    (s = 0 → shippingApplied s = 0 ∧ checkoutTotal s = 0) := by
  refine ⟨?_, ?_, ?_⟩
  · norm_num [checkoutTax, TAX_RATE]
  · intro hpos
    constructor
    · simp only [shippingApplied, SHIPPING, gt_iff_lt, hpos, if_true]; norm_num
    · simp only [checkoutTotal, SHIPPING, gt_iff_lt, hpos, if_true]; norm_num
  · intro hz
    subst hz
    simp [shippingApplied, checkoutTotal]

/-- C5, the scenarios of the specification: a subtotal of 100 gives tax 5,
shipping 7.50 and total 112.50; a subtotal of 0 gives total 0 with no shipping
and no tax. -/
theorem checkout_totals_witness :
    (checkoutTax 100 = 5 ∧ shippingApplied 100 = 15 / 2 ∧ checkoutTotal 100 = 225 / 2) ∧
    (checkoutTax 0 = 0 ∧ shippingApplied 0 = 0 ∧ checkoutTotal 0 = 0) := by
  have h := checkout_totals 100 (by norm_num)
  have h2 := h.2.1 (by norm_num)
  have z := checkout_totals 0 (le_refl 0)
  have z2 := z.2.2 rfl
  refine ⟨⟨?_, h2.1, ?_⟩, ?_, z2.1, z2.2⟩
  · rw [h.1]; norm_num
  · rw [h2.2, h.1]; norm_num
  · rw [z.1]; norm_num

/-- The fallback branches of the loader: a throwing read, an absent value, the
empty string and a text that `JSON.parse` rejects all give the empty array. -/
theorem loadCart_fallback :
    loadCart .throws = Json.arr [] ∧ loadCart .absent = Json.arr [] ∧
    loadCart (.value "") = Json.arr [] ∧
    (∀ text, jsonParse text = none → loadCart (.value text) = Json.arr []) := by
  refine ⟨rfl, rfl, rfl, ?_⟩
  intro text h
  simp only [loadCart, h]
  split_ifs <;> rfl

/-- C6, at the stored texts `null` and `7`: both are valid JSON, so
`JSON.parse` does not throw and the loader returns the parsed value itself;
the initial cart is then not the empty array and denotes no cart at all. -/
theorem loadCart_null_not_empty :
    loadCart (.value "null") = Json.null ∧
    loadCart (.value "null") ≠ Json.arr [] ∧
    cartOfJson (loadCart (.value "null")) = none ∧
    loadCart (.value "7") = Json.num 7 ∧
    cartOfJson (loadCart (.value "7")) = none := by
  have h : loadCart (.value "null") = Json.null := rfl
  refine ⟨h, ?_, rfl, rfl, rfl⟩
  rw [h]
  intro hne
  cases hne

/-- C7. A zero delta is a no-op: on a cart whose quantities are all positive,
`updateQuantity(productId, 0)` returns the input cart, whether or not the cart
has a line for `productId` and whether or not the id is in the catalog. -/
theorem updateQuantity_zero (cart : Cart) (productId : Int)
    (hpos : ∀ line ∈ cart, 0 < line.quantity) :
    updateQuantity productId 0 cart = cart := by
  by_cases h : ∃ y ∈ cart, y.id = productId
  · obtain ⟨l1, q, l2, hcart, h1⟩ := split_at_first productId cart h
    have hq : 0 < q := by
      have := hpos ⟨productId, q⟩ (by rw [hcart]; simp)
      simpa using this
    rw [hcart, updateQuantity_at_first productId 0 q l1 l2 h1]
    have hne : ¬ (q + 0 ≤ 0) := by omega
    rw [if_neg hne, Int.add_zero]
  · exact updateQuantity_absent productId 0 cart (fun y hy hid => h ⟨y, hy, hid⟩)

/-- C7, at concrete carts: a present id, an absent id, and a cart in which an
id occurs twice. -/
theorem updateQuantity_zero_witness :
    updateQuantity 101 0 [⟨102, 3⟩, ⟨101, 2⟩] = [⟨102, 3⟩, ⟨101, 2⟩] ∧
    updateQuantity 999 0 [⟨102, 3⟩, ⟨101, 2⟩] = [⟨102, 3⟩, ⟨101, 2⟩] ∧
    updateQuantity 101 0 [⟨101, 1⟩, ⟨101, 2⟩] = [⟨101, 1⟩, ⟨101, 2⟩] :=
  ⟨updateQuantity_zero [⟨102, 3⟩, ⟨101, 2⟩] 101 (by decide),
    updateQuantity_zero [⟨102, 3⟩, ⟨101, 2⟩] 999 (by decide),
    updateQuantity_zero [⟨101, 1⟩, ⟨101, 2⟩] 101 (by decide)⟩

/-- C8. For every cart and every `productId` that is not the id of a catalog
product, `addToCart(productId)` leaves the cart unchanged. -/
theorem addToCart_not_in_catalog (cart : Cart) (productId : Int)
    (h : ¬ inCatalog productId) : addToCart productId cart = cart := by
  apply addToCart_unknown
  cases hfp : findProduct productId with
  | none => rfl
  | some p => exact absurd ((inCatalog_iff_findProduct productId).mpr ⟨p, hfp⟩) h

/-- C8, at the id 999, on the empty cart and on a cart that already holds a
line with that id. -/
theorem addToCart_not_in_catalog_witness :
    addToCart 999 [] = [] ∧ addToCart 999 [⟨101, 1⟩, ⟨999, 4⟩] = [⟨101, 1⟩, ⟨999, 4⟩] :=
  ⟨addToCart_not_in_catalog [] 999 (by simp [inCatalog, PRODUCTS]),
    addToCart_not_in_catalog [⟨101, 1⟩, ⟨999, 4⟩] 999 (by simp [inCatalog, PRODUCTS])⟩

/-- C9. For every cart, every `productId` for which the cart has no line and
every integer delta, `updateQuantity(productId, delta)` returns the cart
unchanged. -/
theorem updateQuantity_no_line (cart : Cart) (productId delta : Int)
    (h : ¬ hasLine productId cart) : updateQuantity productId delta cart = cart :=
  updateQuantity_absent productId delta cart (fun y hy hid => h ⟨y, hy, hid⟩)

/-- C9, with a positive, a zero and a negative delta on a cart without a line
for product 102. -/
theorem updateQuantity_no_line_witness :
    updateQuantity 102 5 [⟨101, 1⟩] = [⟨101, 1⟩] ∧
    updateQuantity 102 0 [⟨101, 1⟩] = [⟨101, 1⟩] ∧
    updateQuantity 102 (-5) [⟨101, 1⟩] = [⟨101, 1⟩] :=
  ⟨updateQuantity_no_line [⟨101, 1⟩] 102 5 (by simp [hasLine]),
    updateQuantity_no_line [⟨101, 1⟩] 102 0 (by simp [hasLine]),
    updateQuantity_no_line [⟨101, 1⟩] 102 (-5) (by simp [hasLine])⟩

/-- C10. Persistence round trip: for every cart, the string written to the
store for it is read back by the startup loader as the array of the same
`{id, quantity}` objects, which denotes exactly the same lines in the same
order. -/
theorem persist_load_roundtrip (cart : Cart) :
    loadCart (.value (persist cart)) = cartToJson cart ∧
    cartOfJson (loadCart (.value (persist cart))) = some cart := by
  rw [loadCart_persist cart]
  exact ⟨rfl, cartOfJson_cartToJson cart⟩

/-- C10, at a concrete cart with a negative and a zero field, together with
the text that is stored for it. -/
theorem persist_load_roundtrip_witness :
    persist [⟨101, 2⟩, ⟨0, -35⟩]
      = "[\x7b\"id\":101,\"quantity\":2\x7d,\x7b\"id\":0,\"quantity\":-35\x7d]" ∧
    cartOfJson (loadCart (.value (persist [⟨101, 2⟩, ⟨0, -35⟩])))
      = some [⟨101, 2⟩, ⟨0, -35⟩] :=
  ⟨by decide, (persist_load_roundtrip [⟨101, 2⟩, ⟨0, -35⟩]).2⟩

/-- C11. Order submission: in every state on the checkout page with a
non-empty cart (where the order form is rendered), `handleCheckout` empties
the cart, sets the notification to the fixed confirmation message of kind
`success` and schedules one `navigate('home')`; the page is still
`checkout` then, the scheduled callback stays pending whatever other events
follow, and when it fires the current page is `home`.  The handler has no
branch. -/
theorem handleCheckout_spec (s : AppState) (hpage : s.page = "checkout")
    (hcart : s.cart ≠ []) :
    renderPage s = .checkoutPage .orderForm ∧
    (handleCheckout s).cart = [] ∧
    (handleCheckout s).notification
      = some ⟨"Order placed successfully. Thank you for choosing Alúra.", "success"⟩ ∧
    (handleCheckout s).page = "checkout" ∧
    (handleCheckout s).pendingHome = s.pendingHome + 1 ∧
    (stepApp (handleCheckout s) .homeTimerFires).page = "home" ∧
    (stepApp (handleCheckout s) .homeTimerFires).cart = [] ∧
    (∀ events : List AppEvent, (∀ event ∈ events, event ≠ .homeTimerFires) →
      0 < (runApp events (handleCheckout s)).pendingHome ∧
      (stepApp (runApp events (handleCheckout s)) .homeTimerFires).page = "home") := by
  have hlen : ¬ (s.cart.length = 0) := by
    intro h
    exact hcart (List.length_eq_zero.mp h)
  refine ⟨?_, rfl, rfl, hpage, rfl, ?_, ?_, ?_⟩
  · simp [renderPage, hpage, checkoutView, hlen]
  · simp [stepApp, handleCheckout, triggerNotification, navigate]
  · simp [stepApp, handleCheckout, triggerNotification, navigate, clearCart]
  · intro events hev
    have hmono := runApp_pendingHome events (handleCheckout s) hev
    have hone : (handleCheckout s).pendingHome = s.pendingHome + 1 := rfl
    have hpos : 0 < (runApp events (handleCheckout s)).pendingHome := by omega
    refine ⟨hpos, ?_⟩
    have hne : ¬ ((runApp events (handleCheckout s)).pendingHome = 0) := by omega
    simp [stepApp, hne, navigate]

/-- C11, the scenario of the specification: a submit on the checkout page
with the cart `[{id:101, quantity:2}]`, followed by a click and a scroll
before the timer fires. -/
theorem handleCheckout_spec_witness :
    (handleCheckout ⟨"checkout", false, none, [⟨101, 2⟩], 40, 0⟩).cart = [] ∧
    (handleCheckout ⟨"checkout", false, none, [⟨101, 2⟩], 40, 0⟩).notification
      = some ⟨"Order placed successfully. Thank you for choosing Alúra.", "success"⟩ ∧
    (stepApp (handleCheckout ⟨"checkout", false, none, [⟨101, 2⟩], 40, 0⟩)
      .homeTimerFires).page = "home" ∧
    (stepApp (runApp [.clickAbout, .scrolled 7]
      (handleCheckout ⟨"checkout", false, none, [⟨101, 2⟩], 40, 0⟩)) .homeTimerFires).page
      = "home" := by
  have h := handleCheckout_spec ⟨"checkout", false, none, [⟨101, 2⟩], 40, 0⟩ rfl
    (by simp)
  exact ⟨h.2.1, h.2.2.1, h.2.2.2.2.2.1,
    (h.2.2.2.2.2.2.2 [.clickAbout, .scrolled 7] (by simp)).2⟩

/-- C12, a run that the channel can make: notification 1 is shown at time 0,
its 3000 ms timer fires at 3000 and starts the 300 ms timer due at 3300,
notification 2 is shown at 3100, and at 3300 the 300 ms timer started for
notification 1 fires and clears notification 2. -/
theorem stale_fade_timer_clears_newer :
    runChannel
        [.show 0 "Item added to bag." "success", .displayFires 3000,
          .show 3100 "Contact us: support@alura.com" "success"]
        initialChannel
      = some ⟨3100, some ⟨"Contact us: support@alura.com", "success"⟩, 2, true,
          some ⟨6100, 2⟩, [⟨3300, 1⟩]⟩ ∧
    stepChannel
        ⟨3100, some ⟨"Contact us: support@alura.com", "success"⟩, 2, true,
          some ⟨6100, 2⟩, [⟨3300, 1⟩]⟩
        (.fadeFires 3300)
      = some ⟨3300, none, 2, false, none, []⟩ := by
  constructor <;> decide

/-- C13. Navigation: the initial page is `home`; `navigate(target)` makes
`target` the current page from every state and leaves the cart alone, so
`navigate('checkout')` succeeds with an empty cart and shows the empty-bag
branch; each of the three pages is reached from each other one by a single
`navigate`; and after every sequence of events the current page is one of the
three. -/
theorem navigation_machine :
    (∀ cart : Cart, (initialApp cart).page = "home") ∧
    (∀ (s : AppState) (target : String), target ∈ PAGES →
      (navigate target s).page = target ∧ (navigate target s).cart = s.cart) ∧
    (∀ s : AppState, s.cart = [] →
      (navigate "checkout" s).page = "checkout" ∧
      renderPage (navigate "checkout" s) = .checkoutPage .emptyBag) ∧
    (∀ (s : AppState) (target : String), s.page ∈ PAGES → target ∈ PAGES →
      ∃ event : AppEvent,
        (event = .clickLogo ∨ event = .clickAbout ∨ event = .checkoutNow) ∧
        (0 < calculateSubtotal s.cart → (stepApp s event).page = target) ∧
        (navigate target s).page = target) ∧
    (∀ (cart : Cart) (events : List AppEvent),
      (runApp events (initialApp cart)).page ∈ PAGES) := by
  refine ⟨fun _ => rfl, fun s target _ => ⟨rfl, rfl⟩, ?_, ?_, ?_⟩
  · intro s hs
    refine ⟨rfl, ?_⟩
    simp [renderPage, navigate, checkoutView, hs]
  · intro s target _ ht
    simp only [PAGES, List.mem_cons, List.mem_singleton, List.not_mem_nil, or_false] at ht
    rcases ht with ht | ht | ht
    · exact ⟨.clickLogo, Or.inl rfl, fun _ => by simp [stepApp, navigate, ht], rfl⟩
    · exact ⟨.clickAbout, Or.inr (Or.inl rfl), fun _ => by simp [stepApp, navigate, ht], rfl⟩
    · refine ⟨.checkoutNow, Or.inr (Or.inr rfl), ?_, rfl⟩
      intro hpos
      have hne : ¬ (calculateSubtotal s.cart = 0) := ne_of_gt hpos
      simp [stepApp, hne, navigate, toggleCart, ht]
  · intro cart events
    exact runApp_page events (initialApp cart) (by simp [initialApp, PAGES])

/-- C13, at concrete states: from `about` with an empty cart `navigate` reaches
`checkout`; and the run "add product 101, Checkout Now, minus" ends on the
checkout page with an empty cart. -/
theorem navigation_machine_witness :
    ((navigate "checkout" ⟨"about", false, none, [], 0, 0⟩).page = "checkout" ∧
      (navigate "checkout" ⟨"about", false, none, [], 0, 0⟩).cart = []) ∧
    (runApp [.addToBag 101, .checkoutNow, .quantityMinus 101] (initialApp [])).page
      ∈ PAGES :=
  ⟨navigation_machine.2.1 ⟨"about", false, none, [], 0, 0⟩ "checkout" (by simp [PAGES]),
    navigation_machine.2.2.2.2 [] [.addToBag 101, .checkoutNow, .quantityMinus 101]⟩

/-- C14. For every cart, `cartCount` is the sum of the quantities of all its
lines, lines with an id outside the catalog included; it is 0 for the empty
cart. -/
theorem cartCount_spec :
    (∀ cart : Cart, cartCount cart = (cart.map (fun line => line.quantity)).sum) ∧
    cartCount [] = 0 ∧
    cartCount [⟨101, 2⟩, ⟨999, 3⟩] = 5 := by
  refine ⟨?_, rfl, by decide⟩
  intro cart
  unfold cartCount
  rw [foldl_add_int_eq_sum]
  simp

/-- C15, as amended. Decrement undoes add: on a cart with pairwise-distinct
ids and positive quantities in which the line of the product, if there is
one, has a quantity below `2^53`, and for a catalog product,
`updateQuantity(productId, -1)` applied to the result of
`addToCart(productId)` gives back the original cart. -/
theorem decrement_undoes_add (cart : Cart) (productId : Int) (hinv : CartInv cart)
    (hcat : inCatalog productId)
    (hsafe : ∀ line ∈ cart, line.id = productId → line.quantity < 2 ^ 53) :
    updateQuantity productId (-1) (addToCart productId cart) = cart := by
  obtain ⟨p, hp⟩ := (inCatalog_iff_findProduct productId).mp hcat
  rcases hasLine_or_absent productId cart with ⟨q, hq⟩ | habs
  · obtain ⟨l1, l2, hsplit, h1, h2⟩ := split_at_line cart ⟨productId, q⟩ hinv.1 hq
    have hqpos : 0 < q := by
      have := hinv.2 _ hq
      simpa using this
    have hqlt : q < 9007199254740992 := by
      have := hsafe _ hq rfl
      have e : (2 : Int) ^ 53 = 9007199254740992 := by norm_num
      rw [e] at this
      simpa using this
    have hexact : jsAdd q 1 = q + 1 := jsAdd_exact q 1 (by omega) (by omega)
    have hne : ¬ (q + 1 + -1 ≤ 0) := by omega
    have hq2 : q + 1 + -1 = q := by omega
    rw [hsplit, addToCart_at productId q l1 l2 p hp h1 h2, hexact,
      updateQuantity_at productId (-1) (q + 1) l1 l2 h1 h2, if_neg hne, hq2]
  · have hnil : ∀ y ∈ ([] : Cart), y.id ≠ productId := by simp
    rw [addToCart_absent productId cart p hp habs,
      updateQuantity_at productId (-1) 1 cart [] habs hnil]
    simp

/-- C15, on a cart that has the product (its line is in the middle) and on a
cart that does not have it. -/
theorem decrement_undoes_add_witness :
    updateQuantity 102 (-1) (addToCart 102 [⟨101, 1⟩, ⟨102, 3⟩, ⟨103, 2⟩])
      = [⟨101, 1⟩, ⟨102, 3⟩, ⟨103, 2⟩] ∧
    updateQuantity 104 (-1) (addToCart 104 [⟨101, 1⟩]) = [⟨101, 1⟩] :=
  ⟨decrement_undoes_add [⟨101, 1⟩, ⟨102, 3⟩, ⟨103, 2⟩] 102
      ⟨by decide, by decide⟩ (by simp [inCatalog, PRODUCTS]) (by simp),
    decrement_undoes_add [⟨101, 1⟩] 104 ⟨by decide, by decide⟩
      (by simp [inCatalog, PRODUCTS]) (by simp)⟩

/-- C15 as first stated fails at the cart `[{id:101, quantity:2^53}]`, which has
distinct ids and a positive quantity: `addToCart(101)` leaves the quantity at
`2^53` and `updateQuantity(101, -1)` then gives `2^53 - 1`, not the original
cart. -/
theorem decrement_undoes_add_fails_at_two53 :
    CartInv [⟨101, 9007199254740992⟩] ∧
    inCatalog 101 ∧
    updateQuantity 101 (-1) (addToCart 101 [⟨101, 9007199254740992⟩])
      = [⟨101, 9007199254740991⟩] ∧
    updateQuantity 101 (-1) (addToCart 101 [⟨101, 9007199254740992⟩])
      ≠ [⟨101, 9007199254740992⟩] :=
  ⟨⟨by decide, by decide⟩, by simp [inCatalog, PRODUCTS], by decide, by decide⟩

/-- C16. In every cart reached from the empty cart by `addToCart` and
`updateQuantity` calls, every line's id is a catalog id; such a cart is
non-empty exactly when its subtotal is positive, and `CheckoutPage` takes its
empty-cart branch (`cart.length === 0`) exactly when the total is 0. -/
theorem reachable_cart_catalog (ops : List CartOp) :
    (∀ line ∈ runOps ops [], inCatalog line.id) ∧
    (runOps ops [] ≠ [] ↔ 0 < calculateSubtotal (runOps ops [])) ∧
    ((runOps ops []).length = 0 ↔ checkoutTotal (calculateSubtotal (runOps ops [])) = 0) ∧
    (checkoutView (runOps ops []) = .emptyBag ↔
      checkoutTotal (calculateSubtotal (runOps ops [])) = 0) := by
  obtain ⟨hinv, hcat⟩ := catalog_runOps ops [] cartInv_nil (by simp)
  have hiff := subtotal_pos_iff (runOps ops []) hinv.2 hcat
  have hnonneg : 0 ≤ calculateSubtotal (runOps ops []) := by
    by_cases hnil : runOps ops [] = []
    · rw [hnil]; simp [calculateSubtotal]
    · exact le_of_lt (hiff.mp hnil)
  have hzero : (runOps ops []).length = 0 ↔
      checkoutTotal (calculateSubtotal (runOps ops [])) = 0 := by
    rw [checkoutTotal_eq_zero_iff _ hnonneg, List.length_eq_zero]
    constructor
    · intro hnil
      rw [hnil]; simp [calculateSubtotal]
    · intro hs
      by_contra hne
      have := hiff.mp hne
      linarith
  refine ⟨hcat, hiff, hzero, ?_⟩
  rw [← hzero]
  unfold checkoutView
  split_ifs with hlen
  · simp [hlen]
  · simp [hlen]

/-- C16, at the run "add 101, add 103, decrement 101": the cart is
`[{id:103, quantity:1}]`, its subtotal is 75 and the total is not 0. -/
theorem reachable_cart_catalog_witness :
    runOps [.add 101, .add 103, .update 101 (-1)] [] = [⟨103, 1⟩] ∧
    (∀ line ∈ runOps [.add 101, .add 103, .update 101 (-1)] [], inCatalog line.id) ∧
    (runOps [.add 101, .add 103, .update 101 (-1)] [] ≠ [] ↔
      0 < calculateSubtotal (runOps [.add 101, .add 103, .update 101 (-1)] [])) :=
  ⟨by decide, (reachable_cart_catalog [.add 101, .add 103, .update 101 (-1)]).1,
    (reachable_cart_catalog [.add 101, .add 103, .update 101 (-1)]).2.1⟩

end Alura
